import Mathlib

/-!
# Verification of the pulse-play (Video Speed Hotkey) content script

Shallow embedding of `src/content/content-script.js` (class
`VideoSpeedController`): video registry and active-video selection,
speed boost / restore, hotkey matching, blur/visibility handlers,
stale-element cleanup and hotkey validation.

Modelling conventions:
* A DOM video element is a `Video` record identified by `id`; the list
  passed to the registry operations is the (already validated and
  deduplicated) result of `detectVideos()` in discovery order.
* JS numbers are modelled by `JSNum` (`nan`, `inf`, `negInf`, or a
  finite rational); JS comparisons `x <= 0` / `x > 16` are embedded
  with their IEEE semantics (any comparison with NaN is false).
* The JS `Map` of tracked videos is an insertion-ordered association
  list; `Map.set` overwrites in place, `Map.delete` filters.
* `Date.now()` is an explicit `now : ℤ` parameter.
* Rate assignment on an element is a plain store, as in the project's
  own test double (`MockVideoElement`).
-/

namespace PulsePlay

/-- A JavaScript number: NaN, ±Infinity, or a finite value (rationals
stand in for IEEE doubles; the source only stores, compares with 0 and
16, and multiplies width by height). -/
inductive JSNum where
  | nan
  | inf
  | negInf
  | fin (q : ℚ)
deriving DecidableEq

/-- A JavaScript value as far as `applySpeedBoost` inspects it:
either a number or anything else (`typeof multiplier !== "number"`). -/
inductive JSVal where
  | num (n : JSNum)
  | nonNumber
deriving DecidableEq

/-- JS `x <= 0` (false for NaN). -/
def JSNum.jsLeZero : JSNum → Bool
  | .nan => false
  | .inf => false
  | .negInf => true
  | .fin q => decide (q ≤ 0)

/-- JS `x > 16` (false for NaN). -/
def JSNum.jsGtSixteen : JSNum → Bool
  | .nan => false
  | .inf => true
  | .negInf => false
  | .fin q => decide (16 < q)

/-- The rejection test of `applySpeedBoost` (content-script.js:447-451):
`typeof multiplier !== "number" || multiplier <= 0 || multiplier > 16`. -/
def invalidMultiplier : JSVal → Bool
  | .nonNumber => true
  | .num n => n.jsLeZero || n.jsGtSixteen

/-- The page's host, as far as `detectPlatform` inspects
`window.location.hostname` (content-script.js:291-303). -/
inductive Host where
  | youtube
  | vimeo
  | netflix
  | other
deriving DecidableEq

/-- Platform classification stored per tracked video. -/
inductive Platform where
  | youtube
  | vimeo
  | netflix
  | generic
deriving DecidableEq

/-- `detectPlatform` (content-script.js:291-303): classify by hostname. -/
def detectPlatform : Host → Platform
  | .youtube => .youtube
  | .vimeo => .vimeo
  | .netflix => .netflix
  | .other => .generic

/-- A DOM `<video>` element as read by the controller: identity, the
playback flags read by selection, the bounding-box dimensions, and the
current playback rate. -/
structure Video where
  id : ℕ
  paused : Bool
  ended : Bool
  width : ℚ
  height : ℚ
  playbackRate : JSNum
deriving DecidableEq

/-- Per-video tracked state (content-script.js:273-278, 431-436). -/
structure VideoState where
  originalRate : JSNum
  isSpeedBoosted : Bool
  platform : Platform
  lastInteraction : ℤ
deriving DecidableEq

/-- The `trackedVideos` JS `Map`, as an insertion-ordered association
list keyed by element identity. -/
abbrev TrackedMap := List (ℕ × VideoState)

/-- `Map.get(k)`. -/
def mget (m : TrackedMap) (k : ℕ) : Option VideoState :=
  (m.find? (fun e => e.1 == k)).map (·.2)

/-- `Map.set(k, st)`: overwrite in place if the key exists (keeping its
insertion position), otherwise append. -/
def mset (m : TrackedMap) (k : ℕ) (st : VideoState) : TrackedMap :=
  if (mget m k).isSome then m.map (fun e => if e.1 == k then (k, st) else e)
  else m ++ [(k, st)]

/-- Modifier flags of the hotkey state / of a keyboard event. -/
structure Modifiers where
  ctrl : Bool
  alt : Bool
  shift : Bool
  meta : Bool
deriving DecidableEq

/-- `hotkeyState` (content-script.js:18-28). -/
structure HotkeyState where
  isPressed : Bool
  currentKey : Option String
  modifiers : Modifiers
  preventMultipleActivations : Bool
deriving DecidableEq

/-- `resetHotkeyState` (content-script.js:1038-1048). -/
def resetHotkeyState : HotkeyState :=
  ⟨false, none, ⟨false, false, false, false⟩, false⟩

/-- The mutable fields of the `VideoSpeedController` instance used by
the registry and the blur/visibility handlers.  `indicatorVisible`
models whether the speed-indicator overlay is on the page and
`autoHideTimer` whether an auto-hide timer is pending. -/
structure Ctrl where
  tracked : TrackedMap
  lastActive : Option ℕ
  host : Host
  hotkeyState : HotkeyState
  indicatorVisible : Bool
  autoHideTimer : Bool
deriving DecidableEq

/-- `!video.paused && !video.ended` (content-script.js:327-329). -/
def playingPred (v : Video) : Bool := !v.paused && !v.ended

/-- `rect.width * rect.height` (content-script.js:401-402). -/
def area (v : Video) : ℚ := v.width * v.height

/-- The fresh tracking record built for a newly detected video
(content-script.js:273-278 and 431-436). -/
def freshState (host : Host) (now : ℤ) (v : Video) : VideoState :=
  ⟨v.playbackRate, false, detectPlatform host, now⟩

/-- One step of the `videos.forEach` loop of `updateTrackedVideos`
(content-script.js:271-283): add a fresh record when untracked. -/
def trackAddStep (host : Host) (now : ℤ) (m : TrackedMap) (v : Video) :
    TrackedMap :=
  if (mget m v.id).isSome then m else m ++ [(v.id, freshState host now v)]

/-- `updateTrackedVideos` (content-script.js:261-284): drop entries for
elements no longer among the detected videos, then add a fresh record
for each detected video that is not yet tracked. -/
def updateTrackedVideos (tr : TrackedMap) (videos : List Video) (host : Host)
    (now : ℤ) : TrackedMap :=
  let pruned := tr.filter (fun e => videos.any (fun v => v.id == e.1))
  videos.foldl (trackAddStep host now) pruned

/-- The `forEach` scan of `getMostRecentlyInteracted`
(content-script.js:376-389): running best candidate and latest time,
starting from `(null, 0)`; untracked videos are skipped. -/
def mriScan (tr : TrackedMap) (videos : List Video) : Option Video × ℤ :=
  videos.foldl
    (fun acc v =>
      match mget tr v.id with
      | some st =>
          if acc.2 < st.lastInteraction then (some v, st.lastInteraction) else acc
      | none => acc)
    (none, 0)

/-- `getMostRecentlyInteracted` (content-script.js:376-389):
`mostRecent || videos[0]`. -/
def getMostRecentlyInteracted (tr : TrackedMap) (videos : List Video) :
    Option Video :=
  (mriScan tr videos).1 <|> videos.head?

/-- The `forEach` scan of `getLargestVideo` (content-script.js:396-410),
starting from `(null, 0)` with a strict comparison. -/
def largestScan (videos : List Video) : Option Video × ℚ :=
  videos.foldl
    (fun acc v => if acc.2 < area v then (some v, area v) else acc)
    (none, 0)

/-- `getLargestVideo` (content-script.js:396-410); `none` when every
area is `≤ 0`. -/
def getLargestVideo (videos : List Video) : Option Video :=
  (largestScan videos).1

/-- The priority cascade of `getActiveVideo` for two or more candidates
(content-script.js:323-354): unique playing video, else most recently
interacted among several playing, else the remembered last-active video
if still a candidate, else the largest video, else the first. -/
def selectCascade (tr : TrackedMap) (la : Option ℕ) (videos : List Video) :
    Option Video :=
  let playing := videos.filter playingPred
  let a1 : Option Video :=
    if playing.length == 1 then playing.head?
    else if decide (1 < playing.length) then getMostRecentlyInteracted tr playing
    else none
  let a2 : Option Video := a1 <|>
    (match la with
     | some k =>
         if videos.any (fun v => v.id == k) then videos.find? (fun v => v.id == k)
         else none
     | none => none)
  let a3 : Option Video := a2 <|> getLargestVideo videos
  a3 <|> videos.head?

/-- `getActiveVideo` (content-script.js:309-369).  `dom` is the list of
valid candidates produced by `detectVideos()` (which also refreshes the
tracked map, line 89); `now` is `Date.now()`.  Returns the chosen
element and the updated controller state: with no candidate the
last-active reference is cleared; with exactly one candidate it is
returned and remembered; with several, the cascade decides, the choice
is remembered, and — when tracked — its `lastInteraction` is bumped. -/
def getActiveVideo (c : Ctrl) (dom : List Video) (now : ℤ) :
    Option Video × Ctrl :=
  let tr := updateTrackedVideos c.tracked dom c.host now
  match dom with
  | [] => (none, { c with tracked := tr, lastActive := none })
  | [v] => (some v, { c with tracked := tr, lastActive := some v.id })
  | _ =>
    match selectCascade tr c.lastActive dom with
    | some v =>
        let tr' := match mget tr v.id with
          | some st => mset tr v.id { st with lastInteraction := now }
          | none => tr
        (some v, { c with tracked := tr', lastActive := some v.id })
    | none => (none, { c with tracked := tr, lastActive := none })

/-- Assigning `playbackRate` on the element with identity `k`. -/
def setRate (dom : List Video) (k : ℕ) (r : JSNum) : List Video :=
  dom.map (fun v => if v.id == k then { v with playbackRate := r } else v)

/-- Reading the playback rate of the element with identity `k`. -/
def rateAt (dom : List Video) (k : ℕ) : Option JSNum :=
  (dom.find? (fun v => v.id == k)).map (·.playbackRate)

/-- `applySpeedBoost` (content-script.js:417-474): find the active
video; track it if needed; succeed without effect when already
boosted; reject invalid multipliers; otherwise snapshot the rate,
store the multiplier, and mark boosted. -/
def applySpeedBoost (c : Ctrl) (dom : List Video) (now : ℤ)
    (multiplier : JSVal) : Bool × Ctrl × List Video :=
  match getActiveVideo c dom now with
  | (none, c') => (false, c', dom)
  | (some v, c') =>
    let p : VideoState × Ctrl :=
      match mget c'.tracked v.id with
      | some st => (st, c')
      | none =>
          let st := freshState c.host now v
          (st, { c' with tracked := mset c'.tracked v.id st })
    let st := p.1
    let c₁ := p.2
    if st.isSpeedBoosted then (true, c₁, dom)
    else
      match multiplier with
      | .nonNumber => (false, c₁, dom)
      | .num n =>
        if n.jsLeZero || n.jsGtSixteen then (false, c₁, dom)
        else
          let st' := { st with originalRate := v.playbackRate, isSpeedBoosted := true }
          (true, { c₁ with tracked := mset c₁.tracked v.id st' }, setRate dom v.id n)

/-- `restoreOriginalSpeed` (content-script.js:480-521): find the active
video; if untracked, record a default state (original rate 1.0);
succeed without effect when not boosted; otherwise write back the
snapshot and clear the flag. -/
def restoreOriginalSpeed (c : Ctrl) (dom : List Video) (now : ℤ) :
    Bool × Ctrl × List Video :=
  match getActiveVideo c dom now with
  | (none, c') => (false, c', dom)
  | (some v, c') =>
    let p : VideoState × Ctrl :=
      match mget c'.tracked v.id with
      | some st => (st, c')
      | none =>
          let st : VideoState := ⟨.fin 1, false, detectPlatform c.host, now⟩
          (st, { c' with tracked := mset c'.tracked v.id st })
    let st := p.1
    let c₁ := p.2
    if !st.isSpeedBoosted then (true, c₁, dom)
    else
      (true, { c₁ with tracked := mset c₁.tracked v.id { st with isSpeedBoosted := false } },
       setRate dom v.id st.originalRate)

/-- `hideSpeedIndicator`: the overlay is removed from the page. -/
def hideSpeedIndicator (c : Ctrl) : Ctrl := { c with indicatorVisible := false }

/-- `clearAutoHideTimer`: any pending auto-hide timer is cancelled. -/
def clearAutoHideTimer (c : Ctrl) : Ctrl := { c with autoHideTimer := false }

/-- `resetAllSpeeds` (content-script.js:554-583): for every tracked
boosted video, write back its original rate and clear its flag,
counting; then hide the indicator.  Returns the updated state, the
updated DOM, and the reset count. -/
def resetAllSpeeds (c : Ctrl) (dom : List Video) : Ctrl × List Video × ℕ :=
  let r := c.tracked.foldl
    (fun (acc : TrackedMap × List Video × ℕ) e =>
      if e.2.isSpeedBoosted then
        (acc.1 ++ [(e.1, { e.2 with isSpeedBoosted := false })],
         setRate acc.2.1 e.1 e.2.originalRate, acc.2.2 + 1)
      else (acc.1 ++ [e], acc.2.1, acc.2.2))
    ([], dom, 0)
  (hideSpeedIndicator { c with tracked := r.1 }, r.2.1, r.2.2)

/-- `deactivateSpeedBoost` (content-script.js:1007-1033): when pressed,
restore speed, hide the indicator on success, and reset hotkey state. -/
def deactivateSpeedBoost (c : Ctrl) (dom : List Video) (now : ℤ) :
    Ctrl × List Video :=
  if !c.hotkeyState.isPressed then (c, dom)
  else
    match restoreOriginalSpeed c dom now with
    | (success, c₁, dom₁) =>
      let c₂ := if success then hideSpeedIndicator c₁ else c₁
      ({ c₂ with hotkeyState := resetHotkeyState }, dom₁)

/-- `handleWindowBlur` (content-script.js:754-777): deactivate if
pressed (else just hide the indicator), reset all speeds (which also
hides the indicator), clear pending timers. -/
def handleWindowBlur (c : Ctrl) (dom : List Video) (now : ℤ) :
    Ctrl × List Video :=
  let p := if c.hotkeyState.isPressed then deactivateSpeedBoost c dom now
           else (hideSpeedIndicator c, dom)
  match resetAllSpeeds p.1 p.2 with
  | (c₂, dom₂, _) => (clearAutoHideTimer c₂, dom₂)

/-- The `document.hidden` branch of `handleVisibilityChange`
(content-script.js:809-826): deactivate if pressed, reset all speeds,
hide the indicator and clear timers. -/
def handleVisibilityChangeHidden (c : Ctrl) (dom : List Video) (now : ℤ) :
    Ctrl × List Video :=
  let p := if c.hotkeyState.isPressed then deactivateSpeedBoost c dom now
           else (c, dom)
  match resetAllSpeeds p.1 p.2 with
  | (c₂, dom₂, _) => (clearAutoHideTimer (hideSpeedIndicator c₂), dom₂)

/-- The tracked-video portion of `cleanupStaleElements`
(content-script.js:2059-2075): drop every tracked entry whose element
is no longer attached to the document (`attached` models
`document.contains`), clearing the last-active reference when its
element is among the removed ones; returns the number of removed
entries (the source counter additionally counts orphaned indicator and
style nodes, outside the registry model). -/
def cleanupStaleElements (tr : TrackedMap) (la : Option ℕ)
    (attached : ℕ → Bool) : TrackedMap × Option ℕ × ℕ :=
  let removed := tr.filter (fun e => !attached e.1)
  let kept := tr.filter (fun e => attached e.1)
  let la' := match la with
    | some k => if removed.any (fun e => e.1 == k) then none else some k
    | none => none
  (kept, la', removed.length)

/-! ## Hotkey matching (content-script.js:886-969) -/

/-- The alias table of `normalizeKey` (content-script.js:954-966). -/
def keyAliasMap : List (String × String) :=
  [(" ", "Space"), ("Spacebar", "Space"), ("Esc", "Escape"), ("Del", "Delete"),
   ("Ins", "Insert"), ("PgUp", "PageUp"), ("PgDn", "PageDown"),
   ("Left", "ArrowLeft"), ("Right", "ArrowRight"), ("Up", "ArrowUp"),
   ("Down", "ArrowDown")]

/-- `normalizeKey` (content-script.js:950-969): `keyMap[key] || key`,
with the empty string for a falsy key. -/
def normalizeKey (key : String) : String :=
  if key = "" then ""
  else
    match keyAliasMap.find? (fun e => e.1 == key) with
    | some e => e.2
    | none => key

/-- The configured hotkey binding (`settings.hotkey`). -/
structure HotkeyConfig where
  key : String
  modifiers : List String
deriving DecidableEq

/-- A keyboard event as far as the hotkey handlers read it. -/
structure KeyEvent where
  key : String
  ctrlKey : Bool
  altKey : Bool
  shiftKey : Bool
  metaKey : Bool
deriving DecidableEq

/-- `updateModifierState` (content-script.js:886-891): copy the event's
modifier flags into the hotkey state. -/
def updateModifierState (e : KeyEvent) : Modifiers :=
  ⟨e.ctrlKey, e.altKey, e.shiftKey, e.metaKey⟩

/-- `this.hotkeyState.modifiers[modifier]` for a modifier name. -/
def modPressed (m : Modifiers) (name : String) : Bool :=
  if name == "ctrl" then m.ctrl
  else if name == "alt" then m.alt
  else if name == "shift" then m.shift
  else if name == "meta" then m.meta
  else false

/-- `isConfiguredHotkey` (content-script.js:898-926): normalized keys
must agree, and for each of ctrl/alt/shift/meta the configured
requirement must equal the pressed flag recorded in the hotkey state. -/
def isConfiguredHotkey (cfg : HotkeyConfig) (mods : Modifiers) (ev : KeyEvent) :
    Bool :=
  if !(normalizeKey ev.key == normalizeKey cfg.key) then false
  else
    (["ctrl", "alt", "shift", "meta"] : List String).all
      (fun m => cfg.modifiers.contains m == modPressed mods m)

/-! ## Hotkey validation (content-script.js:1469-1778) -/

/-- `[...new Set(l)]`: deduplicate keeping first occurrences. -/
def jsSetDedup (l : List String) : List String :=
  l.foldl (fun acc x => if acc.contains x then acc else acc ++ [x]) []

/-- Insertion step for the default lexicographic `Array.sort()`. -/
def insertSortedStr (x : String) : List String → List String
  | [] => [x]
  | y :: ys => if decide (x ≤ y) then x :: y :: ys else y :: insertSortedStr x ys

/-- `modifiers.sort()`: default JS sort, lexicographic on strings. -/
def jsSortStrings (l : List String) : List String := l.foldr insertSortedStr []

/-- The `browserShortcuts` table (content-script.js:1574-1626). -/
def browserShortcuts : List (String × String) :=
  [("ctrl+r", "Refresh page"), ("ctrl+shift+r", "Hard refresh"),
   ("ctrl+l", "Focus address bar"), ("ctrl+t", "New tab"),
   ("ctrl+w", "Close tab"), ("ctrl+shift+t", "Reopen closed tab"),
   ("ctrl+n", "New window"), ("ctrl+shift+n", "New incognito window"),
   ("ctrl+f", "Find in page"), ("ctrl+g", "Find next"),
   ("ctrl+shift+g", "Find previous"), ("ctrl+h", "History"),
   ("ctrl+j", "Downloads"), ("ctrl+shift+delete", "Clear browsing data"),
   ("f12", "Developer tools"), ("ctrl+shift+i", "Developer tools"),
   ("ctrl+shift+j", "Console"), ("ctrl+u", "View source"),
   ("ctrl+plus", "Zoom in"), ("ctrl+minus", "Zoom out"),
   ("ctrl+0", "Reset zoom"), ("ctrl+tab", "Next tab"),
   ("ctrl+shift+tab", "Previous tab"), ("ctrl+pageup", "Previous tab"),
   ("ctrl+pagedown", "Next tab"), ("ctrl+d", "Bookmark page"),
   ("ctrl+shift+d", "Bookmark all tabs"), ("ctrl+b", "Show bookmarks bar"),
   ("alt+f4", "Close window"), ("alt+tab", "Switch applications"),
   ("ctrl+alt+delete", "System menu"), ("meta+q", "Quit application"),
   ("meta+w", "Close tab"), ("meta+t", "New tab"), ("meta+r", "Refresh"),
   ("meta+l", "Focus address bar")]

/-- The `functionKeyConflicts` table (content-script.js:1643-1650). -/
def functionKeyConflicts : List (String × String) :=
  [("F1", "Help"), ("F3", "Find next"), ("F5", "Refresh"),
   ("F6", "Focus address bar"), ("F11", "Fullscreen"),
   ("F12", "Developer tools")]

/-- The regex `/^F\d+$/`. -/
def isFunctionKeyName (s : String) : Bool :=
  s.startsWith "F" && decide (0 < (s.drop 1).length) && (s.drop 1).all Char.isDigit

/-- JS `key.toLowerCase()`: character-wise lowercase. -/
def jsToLower (s : String) : String := ⟨s.data.map Char.toLower⟩

/-- `checkBrowserShortcutConflicts` (content-script.js:1570-1658):
build `modifiers.sort().join("+") + "+" + key.toLowerCase()` and
collect matching descriptions, plus bare-function-key conflicts. -/
def checkBrowserShortcutConflicts (key : String) (modifiers : List String) :
    List String :=
  let modifierStr := String.intercalate "+" (jsSortStrings modifiers)
  let shortcutStr :=
    if modifierStr ≠ "" then modifierStr ++ "+" ++ jsToLower key
    else jsToLower key
  let base := (browserShortcuts.filter (fun e => e.1 == shortcutStr)).map (·.2)
  let extra :=
    if key.startsWith "F" && isFunctionKeyName key then
      match functionKeyConflicts.find? (fun e => e.1 == key) with
      | some e => if modifiers.length == 0 then [e.2] else []
      | none => []
    else []
  base ++ extra

/-- The regex `/^[a-zA-Z]$/`. -/
def isSingleLetter (s : String) : Bool := s.length == 1 && s.all Char.isAlpha

/-- The regex `/^[0-9]$/`. -/
def isSingleDigit (s : String) : Bool := s.length == 1 && s.all Char.isDigit

/-- `checkProblematicKeyCombinations` (content-script.js:1666-1708). -/
def checkProblematicKeyCombinations (key : String) (modifiers : List String) :
    List String :=
  let p1 :=
    if (["Space", "Enter", "Tab", "Backspace", "Delete"] : List String).contains key
        && modifiers.length == 0 then
      [key ++ " without modifiers may interfere with typing"]
    else []
  let p2 :=
    if (["ArrowUp", "ArrowDown", "ArrowLeft", "ArrowRight"] : List String).contains key
        && modifiers.length == 0 then
      [key ++ " without modifiers may interfere with navigation"]
    else []
  let p3 :=
    if isSingleLetter key && modifiers.length == 0 then
      ["Single letter '" ++ key ++ "' without modifiers may interfere with typing"]
    else []
  let p4 :=
    if isSingleDigit key && modifiers.length == 0 then
      ["Number '" ++ key ++ "' without modifiers may interfere with typing"]
    else []
  let p5 := if key == "Escape" then ["Escape key may conflict with cancel/close actions"] else []
  let p6 :=
    if decide (2 < modifiers.length) then
      ["Too many modifiers may be difficult to press simultaneously"]
    else []
  p1 ++ p2 ++ p3 ++ p4 ++ p5 ++ p6

/-- Result of `checkKeySuitability`. -/
structure SuitabilityResult where
  suitable : Bool
  reason : String
deriving DecidableEq

/-- `checkKeySuitability` (content-script.js:1716-1778). -/
def checkKeySuitability (key : String) (modifiers : List String) :
    SuitabilityResult :=
  let goodHoldKeys : List String :=
    ["Space", "Shift", "Ctrl", "Alt", "Meta", "CapsLock", "Tab"]
  let badHoldKeys : List String :=
    ["Enter", "Escape", "Backspace", "Delete", "Home", "End", "PageUp", "PageDown"]
  let arrowKeys : List String :=
    ["ArrowUp", "ArrowDown", "ArrowLeft", "ArrowRight"]
  if badHoldKeys.contains key then
    ⟨false, key ++ " is not suitable for hold-to-activate functionality"⟩
  else if goodHoldKeys.contains key || isFunctionKeyName key then
    ⟨true, key ++ " is suitable for hold-to-activate"⟩
  else if (isSingleLetter key || isSingleDigit key) && decide (0 < modifiers.length) then
    ⟨true, key ++ " with modifiers is acceptable for hold-to-activate"⟩
  else if arrowKeys.contains key && decide (0 < modifiers.length) then
    ⟨true, key ++ " with modifiers is acceptable for hold-to-activate"⟩
  else
    ⟨false, key ++ " may not be ideal for hold-to-activate functionality"⟩

/-- The `key` field of a hotkey-configuration object: missing/falsy,
present but not a string, or a string. -/
inductive KeyField where
  | missing
  | notString
  | str (s : String)
deriving DecidableEq

/-- The `modifiers` field: absent (destructuring default `[]`), present
but not an array, or an array of strings. -/
inductive ModsField where
  | absent
  | notArray
  | arr (l : List String)
deriving DecidableEq

/-- A hotkey-configuration object handed to `validateHotkey`. -/
structure HotkeyInput where
  key : KeyField
  modifiers : ModsField

/-- The structured result of `validateHotkey`. -/
structure ValidationResult where
  success : Bool
  warnings : List String
  errors : List String
  conflicts : List String
deriving DecidableEq

/-- The `validModifiers` list (content-script.js:1499). -/
def validModifiers : List String := ["ctrl", "alt", "shift", "meta"]

/-- `validateHotkey` (content-script.js:1469-1562).  `none` models a
null / non-object argument.  Structural errors return early with
`success := false`; otherwise warnings and conflicts are collected and
`success := true` (errors stay empty). -/
def validateHotkey (input : Option HotkeyInput) : ValidationResult :=
  match input with
  | none => ⟨false, [], ["Invalid hotkey configuration object"], []⟩
  | some cfg =>
    let mods0 := match cfg.modifiers with
      | .absent => ModsField.arr []
      | m => m
    match cfg.key with
    | .missing => ⟨false, [], ["Hotkey must specify a valid key"], []⟩
    | .notString => ⟨false, [], ["Hotkey must specify a valid key"], []⟩
    | .str s =>
      if s = "" then ⟨false, [], ["Hotkey must specify a valid key"], []⟩
      else
        match mods0 with
        | .notArray => ⟨false, [], ["Modifiers must be an array"], []⟩
        | .absent => ⟨false, [], ["Modifiers must be an array"], []⟩
        | .arr mods =>
          let invalids := mods.filter (fun m => !validModifiers.contains m)
          if invalids ≠ [] then
            ⟨false, [], ["Invalid modifiers: " ++ String.intercalate ", " invalids], []⟩
          else
            let uniqueMods := jsSetDedup mods
            let w1 : List String :=
              if uniqueMods.length ≠ mods.length then
                ["Duplicate modifiers detected and removed"]
              else []
            let normalizedKey := normalizeKey s
            let conflicts := checkBrowserShortcutConflicts normalizedKey uniqueMods
            let w2 : List String :=
              if conflicts ≠ [] then
                ["Potential conflicts with browser shortcuts: "
                  ++ String.intercalate ", " conflicts]
              else []
            let probs := checkProblematicKeyCombinations normalizedKey uniqueMods
            let w3 : List String :=
              if probs ≠ [] then
                ["Potentially problematic combinations: "
                  ++ String.intercalate ", " probs]
              else []
            let suit := checkKeySuitability normalizedKey uniqueMods
            let w4 : List String := if !suit.suitable then [suit.reason] else []
            ⟨true, w1 ++ w2 ++ w3 ++ w4, [], conflicts⟩

/-! ## Specification-side definitions and proof-layer helpers -/

/-- First element of the list attaining the maximum of `f`, together
with that maximum (recursive helper used to relate the source's scans
to the specification's arg-max). -/
def firstMax {α : Type} [LinearOrder α] (f : Video → α) : List Video → Option (Video × α)
  | [] => none
  | v :: l =>
    match firstMax f l with
    | none => some (v, f v)
    | some (w, m) => if f v < m then some (w, m) else some (v, f v)

/-- The scan pattern shared by `getLargestVideo` and
`getMostRecentlyInteracted`: keep the first element strictly exceeding
the running best. -/
def scanMax {α : Type} [LinearOrder α] (f : Video → α) (init : Option Video × α)
    (l : List Video) : Option Video × α :=
  l.foldl (fun acc v => if acc.2 < f v then (some v, f v) else acc) init

/-- Modelled from the spec (§4.1): "the candidate with the largest
rendered area (width×height); ties broken by first-encountered order" —
the first list element whose `f`-value is at least every other's. -/
def specMaxBy {α : Type} [LinearOrder α] (f : Video → α) (l : List Video) :
    Option Video :=
  l.find? (fun v => l.all (fun u => decide (f u ≤ f v)))

/-- A candidate's `lastInteraction` as the tie-break reads it
(`0` when untracked, matching the scan's initial `latestTime`). -/
def tsD (tr : TrackedMap) (v : Video) : ℤ :=
  ((mget tr v.id).map (·.lastInteraction)).getD 0

/-- Modelled from the spec (§4.1 `selectActive`): the five-level
tie-break, first match winning — (1) unique playing candidate,
(2) most recent `lastInteraction` among several playing (ties by
first-encountered order), (3) the previously selected element if still
a candidate, (4) largest rendered area (ties by first-encountered
order), (5) first candidate. -/
def selectActiveSpec (tr : TrackedMap) (la : Option ℕ) (videos : List Video) :
    Option Video :=
  let playing := videos.filter playingPred
  if playing.length = 1 then playing.head?
  else if 1 < playing.length then specMaxBy (tsD tr) playing
  else
    match (match la with
           | some k => videos.find? (fun v => v.id == k)
           | none => none) with
    | some v => some v
    | none => (specMaxBy area videos) <|> videos.head?

/-- The element-wise effect of `setRate dom k r` (so that
`setRate dom k r = dom.map (adjVid k r)` by definition). -/
def adjVid (k : ℕ) (r : JSNum) (v : Video) : Video :=
  if v.id == k then { v with playbackRate := r } else v

/-! ## Concrete test fixtures

Small concrete pages used to instantiate the general theorems: a paused
320×240 element beside a playing 100×100 one, and a single tracked
element in boosted / non-boosted state. -/

/-- A paused 320×240 video (identity 0, rate 1). -/
def vidA : Video := ⟨0, true, false, 320, 240, .fin 1⟩

/-- A playing 100×100 video (identity 1, rate 1). -/
def vidB : Video := ⟨1, false, false, 100, 100, .fin 1⟩

/-- A controller tracking `vidA` and `vidB` (interactions at 5 and 6),
with no remembered last-active element. -/
def ctrlW : Ctrl :=
  ⟨[(0, ⟨.fin 1, false, .generic, 5⟩), (1, ⟨.fin 1, false, .generic, 6⟩)],
   none, .other, resetHotkeyState, false, false⟩

/-- A playing 100×100 video (identity 0, rate 2). -/
def vidC : Video := ⟨0, false, false, 100, 100, .fin 2⟩

/-- A controller tracking `vidC` in the boosted state. -/
def ctrlB : Ctrl :=
  ⟨[(0, ⟨.fin 1, true, .generic, 5⟩)], some 0, .other, resetHotkeyState,
   false, false⟩

/-- A controller tracking `vidC` in the non-boosted state. -/
def ctrlN : Ctrl :=
  ⟨[(0, ⟨.fin 1, false, .generic, 5⟩)], some 0, .other, resetHotkeyState,
   false, false⟩

/-- A controller with the hotkey held down, a pending auto-hide timer, a
visible indicator, and two tracked elements — identity 0 boosted (its
original rate 1), identity 1 not boosted. -/
def ctrlP : Ctrl :=
  ⟨[(0, ⟨.fin 1, true, .generic, 5⟩), (1, ⟨.fin 1, false, .generic, 6⟩)],
   some 0, .other, ⟨true, some "Space", ⟨false, false, false, false⟩, true⟩,
   true, true⟩

/-- The page for `ctrlP`: element 0 playing at the boosted rate 2,
element 1 paused at rate 1. -/
def domP : List Video :=
  [⟨0, false, false, 100, 100, .fin 2⟩, ⟨1, true, false, 200, 200, .fin 1⟩]

/-! ## Lemmas: the first-strict-max scan -/

section ScanLemmas

variable {α : Type} [LinearOrder α] {f : Video → α}

theorem firstMax_eq_none_iff {l : List Video} :
    firstMax f l = none ↔ l = [] := by
  cases l with
  | nil => simp [firstMax]
  | cons v t =>
    simp only [firstMax]
    cases h : firstMax f t with
    | none => simp
    | some p =>
      obtain ⟨w, m⟩ := p
      by_cases hc : f v < m <;> simp [hc]

theorem firstMax_mem {l : List Video} {w : Video} {m : α}
    (h : firstMax f l = some (w, m)) : w ∈ l := by
  induction l with
  | nil => simp [firstMax] at h
  | cons v t ih =>
    simp only [firstMax] at h
    cases ht : firstMax f t with
    | none => rw [ht] at h; simp at h; simp [h.1]
    | some p =>
      obtain ⟨w', m'⟩ := p
      rw [ht] at h
      by_cases hc : f v < m'
      · simp [hc] at h
        exact List.mem_cons_of_mem _ (ih (by rw [ht, h.1, h.2]))
      · simp [hc] at h
        simp [h.1]

theorem firstMax_val {l : List Video} {w : Video} {m : α}
    (h : firstMax f l = some (w, m)) : f w = m := by
  induction l with
  | nil => simp [firstMax] at h
  | cons v t ih =>
    simp only [firstMax] at h
    cases ht : firstMax f t with
    | none =>
      rw [ht] at h
      simp at h
      obtain ⟨rfl, rfl⟩ := h
      rfl
    | some p =>
      obtain ⟨w', m'⟩ := p
      rw [ht] at h
      by_cases hc : f v < m'
      · simp [hc] at h
        obtain ⟨rfl, rfl⟩ := h
        exact ih ht
      · simp [hc] at h
        obtain ⟨rfl, rfl⟩ := h
        rfl

theorem firstMax_le {l : List Video} :
    ∀ {w : Video} {m : α}, firstMax f l = some (w, m) → ∀ u ∈ l, f u ≤ m := by
  induction l with
  | nil => intro w m h; simp [firstMax] at h
  | cons v t ih =>
    intro w m h
    simp only [firstMax] at h
    cases ht : firstMax f t with
    | none =>
      rw [ht] at h
      simp at h
      obtain ⟨rfl, rfl⟩ := h
      have : t = [] := firstMax_eq_none_iff.mp ht
      subst this
      simp
    | some p =>
      obtain ⟨w', m'⟩ := p
      rw [ht] at h
      by_cases hc : f v < m'
      · simp [hc] at h
        obtain ⟨rfl, rfl⟩ := h
        intro u hu
        rcases List.mem_cons.mp hu with rfl | hu
        · exact le_of_lt hc
        · exact ih ht u hu
      · simp [hc] at h
        obtain ⟨rfl, rfl⟩ := h
        intro u hu
        rcases List.mem_cons.mp hu with rfl | hu
        · exact le_refl _
        · exact le_trans (ih ht u hu) (not_lt.mp hc)

theorem firstMax_cons (v : Video) (l : List Video) :
    firstMax f (v :: l) =
      match firstMax f l with
      | none => some (v, f v)
      | some (w, m) => if f v < m then some (w, m) else some (v, f v) := rfl

theorem scanMax_eq_firstMax {l : List Video} (b : Option Video) (t : α) :
    scanMax f (b, t) l =
      match firstMax f l with
      | none => (b, t)
      | some (w, m) => if t < m then (some w, m) else (b, t) := by
  induction l generalizing b t with
  | nil => simp [scanMax, firstMax]
  | cons v l ih =>
    have step : scanMax f (b, t) (v :: l) =
        scanMax f (if t < f v then (some v, f v) else (b, t)) l := by
      simp only [scanMax, List.foldl_cons]
    by_cases hc : t < f v
    · rw [step, if_pos hc, ih (some v) (f v)]
      cases ht : firstMax f l with
      | none => simp [firstMax_cons, ht, hc]
      | some p =>
        obtain ⟨w, m⟩ := p
        by_cases hvm : f v < m
        · simp [firstMax_cons, ht, hvm, lt_trans hc hvm]
        · simp [firstMax_cons, ht, hvm, hc, lt_irrefl]
    · rw [step, if_neg hc, ih b t]
      cases ht : firstMax f l with
      | none => simp [firstMax_cons, ht, hc]
      | some p =>
        obtain ⟨w, m⟩ := p
        by_cases hvm : f v < m
        · simp [firstMax_cons, ht, hvm]
        · have htm : ¬ t < m :=
            fun h => hc (lt_of_lt_of_le h (not_lt.mp hvm))
          simp [firstMax_cons, ht, hvm, hc, htm]

theorem find?_congr {β : Type} {p q : β → Bool} {l : List β}
    (h : ∀ x ∈ l, p x = q x) : l.find? p = l.find? q := by
  induction l with
  | nil => rfl
  | cons a l ih =>
    have ha := h a (List.mem_cons_self a l)
    by_cases hp : p a
    · rw [List.find?_cons_of_pos _ hp, List.find?_cons_of_pos _ (ha ▸ hp)]
    · rw [List.find?_cons_of_neg _ hp, List.find?_cons_of_neg _ (ha ▸ hp)]
      exact ih (fun x hx => h x (List.mem_cons_of_mem a hx))

theorem specMaxBy_eq_firstMax (l : List Video) :
    specMaxBy f l = (firstMax f l).map (·.1) := by
  induction l with
  | nil => simp [specMaxBy, firstMax]
  | cons v l ih =>
    cases ht : firstMax f l with
    | none =>
      have : l = [] := firstMax_eq_none_iff.mp ht
      subst this
      simp [specMaxBy, firstMax]
    | some p =>
      obtain ⟨w, m⟩ := p
      have hcons : firstMax f (v :: l) =
          if f v < m then some (w, m) else some (v, f v) := by
        rw [firstMax_cons, ht]
      have hwl : w ∈ l := firstMax_mem ht
      have hwv : f w = m := firstMax_val ht
      have hle : ∀ u ∈ l, f u ≤ m := firstMax_le ht
      by_cases hvm : f v < m
      · rw [hcons, if_pos hvm]
        have hpv : ¬ ((v :: l).all (fun u => decide (f u ≤ f v)) = true) := by
          simp only [List.all_eq_true]
          intro hall
          have := hall w (List.mem_cons_of_mem _ hwl)
          rw [decide_eq_true_iff] at this
          exact absurd (lt_of_lt_of_le hvm (hwv ▸ this)) (lt_irrefl _)
        have : specMaxBy f (v :: l) =
            (v :: l).find? (fun x => (v :: l).all (fun u => decide (f u ≤ f x))) := rfl
        rw [this, List.find?_cons_of_neg _ (by simpa using hpv)]
        have hcongr :
            l.find? (fun x => (v :: l).all (fun u => decide (f u ≤ f x))) =
            l.find? (fun x => l.all (fun u => decide (f u ≤ f x))) := by
          apply find?_congr
          intro x hx
          by_cases hq : l.all (fun u => decide (f u ≤ f x)) = true
          · have hfx : m ≤ f x := by
              have := (List.all_eq_true.mp hq) w hwl
              rw [decide_eq_true_iff] at this
              exact hwv ▸ this
            have hvx : f v ≤ f x := le_of_lt (lt_of_lt_of_le hvm hfx)
            simp only [List.all_cons, hq, decide_eq_true_iff.mpr hvx]
            simp
          · have hq' : (v :: l).all (fun u => decide (f u ≤ f x)) = false := by
              simp only [List.all_cons, Bool.and_eq_false_iff]
              right
              simpa using hq
            rw [hq']
            simpa using hq
        rw [hcongr]
        show specMaxBy f l = Option.map (fun x => x.1) (some (w, m))
        rw [ih, ht]
      · rw [hcons, if_neg hvm]
        have hmv : m ≤ f v := not_lt.mp hvm
        have hpv : (v :: l).all (fun u => decide (f u ≤ f v)) = true := by
          simp only [List.all_eq_true]
          intro u hu
          rcases List.mem_cons.mp hu with rfl | hu
          · simp
          · exact decide_eq_true_iff.mpr (le_trans (hle u hu) hmv)
        have : specMaxBy f (v :: l) =
            (v :: l).find? (fun x => (v :: l).all (fun u => decide (f u ≤ f x))) := rfl
        rw [this, List.find?_cons_of_pos _ (by simpa using hpv)]
        rfl

theorem firstMax_of_split {l₁ l₂ : List Video} {v : Video} {M : α}
    (hv : f v = M) (h₁ : ∀ u ∈ l₁, f u < M) (h₂ : ∀ u ∈ l₂, f u ≤ M) :
    firstMax f (l₁ ++ v :: l₂) = some (v, M) := by
  induction l₁ with
  | nil =>
    rw [List.nil_append]
    cases ht : firstMax f l₂ with
    | none =>
      have hcons : firstMax f (v :: l₂) = some (v, f v) := by
        rw [firstMax_cons, ht]
      rw [hcons, hv]
    | some p =>
      obtain ⟨w, m⟩ := p
      have hm : m ≤ M := by
        have hw := firstMax_val ht
        exact hw ▸ h₂ w (firstMax_mem ht)
      have hnlt : ¬ f v < m :=
        fun hlt => absurd (lt_of_lt_of_le hlt hm) (by rw [hv]; exact lt_irrefl M)
      have hcons : firstMax f (v :: l₂) = some (v, f v) := by
        rw [firstMax_cons, ht]
        show (if f v < m then some (w, m) else some (v, f v)) = some (v, f v)
        rw [if_neg hnlt]
      rw [hcons, hv]
  | cons a l₁ ih =>
    have ha : f a < M := h₁ a (List.mem_cons_self a l₁)
    have ih' := ih (fun u hu => h₁ u (List.mem_cons_of_mem a hu))
    rw [List.cons_append]
    have hcons : firstMax f (a :: (l₁ ++ v :: l₂)) = some (v, M) := by
      rw [firstMax_cons, ih']
      show (if f a < M then some (v, M) else some (a, f a)) = some (v, M)
      rw [if_pos ha]
    exact hcons

theorem firstMax_split {l : List Video} {v : Video} {M : α}
    (h : firstMax f l = some (v, M)) :
    ∃ l₁ l₂, l = l₁ ++ v :: l₂ ∧ (∀ u ∈ l₁, f u < M) ∧ (∀ u ∈ l₂, f u ≤ M) := by
  induction l with
  | nil => simp [firstMax] at h
  | cons a l ih =>
    simp only [firstMax] at h
    cases ht : firstMax f l with
    | none =>
      rw [ht] at h
      simp at h
      obtain ⟨rfl, rfl⟩ := h
      have hl : l = [] := firstMax_eq_none_iff.mp ht
      subst hl
      exact ⟨[], [], rfl, by simp, by simp⟩
    | some p =>
      obtain ⟨w, m⟩ := p
      rw [ht] at h
      by_cases hc : f a < m
      · simp [hc] at h
        obtain ⟨rfl, rfl⟩ := h
        obtain ⟨l₁, l₂, rfl, hl₁, hl₂⟩ := ih ht
        refine ⟨a :: l₁, l₂, rfl, ?_, hl₂⟩
        intro u hu
        rcases List.mem_cons.mp hu with rfl | hu
        · exact hc
        · exact hl₁ u hu
      · simp [hc] at h
        obtain ⟨rfl, rfl⟩ := h
        refine ⟨[], l, rfl, by simp, ?_⟩
        intro u hu
        calc f u ≤ m := firstMax_le ht u hu
          _ ≤ f a := not_lt.mp hc

end ScanLemmas

/-! ## Lemmas: the tracked-video map -/

section MapLemmas

theorem mget_some_elim {m : TrackedMap} {k : ℕ} {st : VideoState}
    (h : mget m k = some st) : (k, st) ∈ m := by
  unfold mget at h
  cases hf : m.find? (fun e => e.1 == k) with
  | none => rw [hf] at h; simp at h
  | some e =>
    rw [hf] at h
    simp at h
    have hmem := List.mem_of_find?_eq_some hf
    have hpred := List.find?_some hf
    obtain ⟨k', st'⟩ := e
    simp at hpred h
    subst hpred
    subst h
    exact hmem

theorem mget_of_mem_nodup {m : TrackedMap} {k : ℕ} {st : VideoState}
    (hnd : (m.map Prod.fst).Nodup) (hm : (k, st) ∈ m) : mget m k = some st := by
  induction m with
  | nil => simp at hm
  | cons e t ih =>
    rw [List.map_cons] at hnd
    have hnd' := List.nodup_cons.mp hnd
    rcases List.mem_cons.mp hm with rfl | hm'
    · unfold mget
      rw [List.find?_cons_of_pos _ (by simp)]
      rfl
    · have hk : e.1 ≠ k := by
        intro hek
        exact hnd'.1 (by rw [hek]; exact List.mem_map.mpr ⟨(k, st), hm', rfl⟩)
      unfold mget
      rw [List.find?_cons_of_neg _ (by simp [hk])]
      exact ih hnd'.2 hm'

theorem mget_append_left {m l : TrackedMap} {k : ℕ} {st : VideoState}
    (h : mget m k = some st) : mget (m ++ l) k = some st := by
  unfold mget at h ⊢
  rw [List.find?_append]
  cases hf : m.find? (fun e => e.1 == k) with
  | none => rw [hf] at h; simp at h
  | some e => rw [hf] at h; simp [Option.or, h]

theorem mget_append_none {m l : TrackedMap} {k : ℕ}
    (h : mget m k = none) : mget (m ++ l) k = mget l k := by
  unfold mget at h ⊢
  rw [List.find?_append]
  cases hf : m.find? (fun e => e.1 == k) with
  | none => simp [Option.or]
  | some e => rw [hf] at h; simp at h

theorem mget_singleton_self (k : ℕ) (st : VideoState) :
    mget [(k, st)] k = some st := by
  unfold mget
  rw [List.find?_cons_of_pos _ (by simp)]
  rfl

theorem mget_mapRepl_self {m : TrackedMap} {k : ℕ} (st : VideoState)
    (hp : (mget m k).isSome) :
    mget (m.map (fun e => if e.1 == k then (k, st) else e)) k = some st := by
  induction m with
  | nil => simp [mget] at hp
  | cons e t ih =>
    by_cases he : (e.1 == k) = true
    · simp only [List.map_cons, if_pos he]
      unfold mget
      rw [List.find?_cons_of_pos _ (by simp)]
      rfl
    · simp only [List.map_cons, if_neg he]
      have hp' : (mget t k).isSome := by
        unfold mget at hp ⊢
        rwa [List.find?_cons_of_neg _ (by exact he)] at hp
      have := ih hp'
      unfold mget at this ⊢
      rwa [List.find?_cons_of_neg _ (by exact he)]

theorem mget_mapRepl_ne {m : TrackedMap} {j k : ℕ} (st : VideoState)
    (h : j ≠ k) :
    mget (m.map (fun e => if e.1 == k then (k, st) else e)) j = mget m j := by
  induction m with
  | nil => rfl
  | cons e t ih =>
    by_cases he : (e.1 == k) = true
    · have hek : e.1 = k := beq_iff_eq.mp he
      simp only [List.map_cons, if_pos he]
      unfold mget at ih ⊢
      rw [List.find?_cons_of_neg _ (by simp [Ne.symm h]),
          List.find?_cons_of_neg _ (by simp [hek, Ne.symm h])]
      exact ih
    · simp only [List.map_cons, if_neg he]
      by_cases hej : (e.1 == j) = true
      · unfold mget
        rw [List.find?_cons_of_pos _ (by exact hej),
            List.find?_cons_of_pos _ (by exact hej)]
      · unfold mget at ih ⊢
        rw [List.find?_cons_of_neg _ (by exact hej),
            List.find?_cons_of_neg _ (by exact hej)]
        exact ih

theorem mget_mset_self (m : TrackedMap) (k : ℕ) (st : VideoState) :
    mget (mset m k st) k = some st := by
  unfold mset
  by_cases h : (mget m k).isSome
  · rw [if_pos h]
    exact mget_mapRepl_self st h
  · rw [if_neg h]
    have hnone : mget m k = none := by
      cases hm : mget m k with
      | none => rfl
      | some st' => rw [hm] at h; simp at h
    rw [mget_append_none hnone]
    exact mget_singleton_self k st

theorem mget_mset_ne {m : TrackedMap} {j k : ℕ} (st : VideoState) (h : j ≠ k) :
    mget (mset m k st) j = mget m j := by
  unfold mset
  by_cases hp : (mget m k).isSome
  · rw [if_pos hp]
    exact mget_mapRepl_ne st h
  · rw [if_neg hp]
    cases hj : mget m j with
    | none =>
      have h2 : mget ([(k, st)] : TrackedMap) j = none := by
        unfold mget
        rw [List.find?_cons_of_neg _ (by simp [Ne.symm h])]
        rfl
      rw [mget_append_none hj, h2]

    | some stj => exact mget_append_left hj

end MapLemmas

/-! ## Lemmas: `updateTrackedVideos` -/

section UpdateTrackedLemmas

theorem trackFold_preserve {videos : List Video} {host : Host} {now : ℤ} :
    ∀ {m : TrackedMap} {k : ℕ} {st : VideoState}, mget m k = some st →
      mget (videos.foldl (trackAddStep host now) m) k = some st := by
  induction videos with
  | nil => intro m k st h; exact h
  | cons v t ih =>
    intro m k st h
    rw [List.foldl_cons]
    apply ih
    unfold trackAddStep
    by_cases hp : (mget m v.id).isSome
    · rwa [if_pos hp]
    · rw [if_neg hp]
      exact mget_append_left h

theorem trackFold_isSome {videos : List Video} {host : Host} {now : ℤ}
    {v : Video} (hv : v ∈ videos) :
    ∀ (m : TrackedMap),
      (mget (videos.foldl (trackAddStep host now) m) v.id).isSome := by
  induction videos with
  | nil => simp at hv
  | cons a t ih =>
    intro m
    rw [List.foldl_cons]
    rcases List.mem_cons.mp hv with rfl | hv'
    · -- the head step makes `v.id` present; the rest of the fold keeps it
      have hpresent : (mget (trackAddStep host now m v) v.id).isSome := by
        unfold trackAddStep
        by_cases hp : (mget m v.id).isSome
        · rwa [if_pos hp]
        · rw [if_neg hp]
          have hnone : mget m v.id = none := by
            cases hm : mget m v.id with
            | none => rfl
            | some st' => rw [hm] at hp; simp at hp
          rw [mget_append_none hnone, mget_singleton_self]
          rfl
      cases hg : mget (trackAddStep host now m v) v.id with
      | none => rw [hg] at hpresent; simp at hpresent
      | some st => rw [trackFold_preserve hg]; rfl
    · exact ih hv' _

theorem trackFold_mem {videos : List Video} {host : Host} {now : ℤ} :
    ∀ {m : TrackedMap} {e : ℕ × VideoState},
      e ∈ videos.foldl (trackAddStep host now) m →
      e ∈ m ∨ ∃ v ∈ videos, e = (v.id, freshState host now v) := by
  induction videos with
  | nil => intro m e h; exact Or.inl h
  | cons a t ih =>
    intro m e h
    rw [List.foldl_cons] at h
    rcases ih h with hm | ⟨v, hv, he⟩
    · unfold trackAddStep at hm
      by_cases hp : (mget m a.id).isSome
      · rw [if_pos hp] at hm
        exact Or.inl hm
      · rw [if_neg hp] at hm
        rcases List.mem_append.mp hm with hm' | hm'
        · exact Or.inl hm'
        · simp at hm'
          exact Or.inr ⟨a, List.mem_cons_self a t, hm'⟩
    · exact Or.inr ⟨v, List.mem_cons_of_mem a hv, he⟩

theorem trackFold_id {videos : List Video} {host : Host} {now : ℤ} :
    ∀ {m : TrackedMap}, (∀ v ∈ videos, (mget m v.id).isSome) →
      videos.foldl (trackAddStep host now) m = m := by
  induction videos with
  | nil => intro m _; rfl
  | cons a t ih =>
    intro m h
    rw [List.foldl_cons]
    have hstep : trackAddStep host now m a = m := by
      unfold trackAddStep
      rw [if_pos (h a (List.mem_cons_self a t))]
    rw [hstep]
    exact ih (fun v hv => h v (List.mem_cons_of_mem a hv))

theorem mget_filter_preserve {tr : TrackedMap} {k : ℕ} {st : VideoState}
    {q : ℕ × VideoState → Bool}
    (h : mget tr k = some st) (hq : ∀ e : ℕ × VideoState, e.1 = k → q e) :
    mget (tr.filter q) k = some st := by
  induction tr with
  | nil => simp [mget] at h
  | cons e t ih =>
    by_cases he : (e.1 == k) = true
    · have hek : e.1 = k := beq_iff_eq.mp he
      have hst : e.2 = st := by
        unfold mget at h
        rw [List.find?_cons_of_pos _ (by exact he)] at h
        simpa using h
      rw [List.filter_cons, if_pos (hq e hek)]
      unfold mget
      rw [List.find?_cons_of_pos _ (by exact he)]
      simp [hst]
    · have h' : mget t k = some st := by
        unfold mget at h ⊢
        rwa [List.find?_cons_of_neg _ (by exact he)] at h
      rw [List.filter_cons]
      by_cases hqe : q e
      · rw [if_pos hqe]
        unfold mget
        rw [List.find?_cons_of_neg _ (by exact he)]
        exact ih h'
      · rw [if_neg hqe]
        exact ih h'

theorem updateTracked_preserve {tr : TrackedMap} {videos : List Video}
    {host : Host} {now : ℤ} {k : ℕ} {st : VideoState}
    (hk : videos.any (fun v => v.id == k))
    (h : mget tr k = some st) :
    mget (updateTrackedVideos tr videos host now) k = some st := by
  unfold updateTrackedVideos
  apply trackFold_preserve
  exact mget_filter_preserve h (fun e he => by rw [he]; exact hk)

theorem updateTracked_isSome {tr : TrackedMap} {videos : List Video}
    {host : Host} {now : ℤ} {v : Video} (hv : v ∈ videos) :
    (mget (updateTrackedVideos tr videos host now) v.id).isSome := by
  unfold updateTrackedVideos
  exact trackFold_isSome hv _

theorem updateTracked_keys {tr : TrackedMap} {videos : List Video}
    {host : Host} {now : ℤ} {e : ℕ × VideoState}
    (he : e ∈ updateTrackedVideos tr videos host now) :
    videos.any (fun v => v.id == e.1) := by
  unfold updateTrackedVideos at he
  rcases trackFold_mem he with hm | ⟨v, hv, rfl⟩
  · exact (List.mem_filter.mp hm).2
  · exact List.any_eq_true.mpr ⟨v, hv, by simp⟩

theorem updateTracked_id {tr : TrackedMap} {videos : List Video}
    {host : Host} {now : ℤ}
    (h1 : ∀ e ∈ tr, videos.any (fun v => v.id == e.1))
    (h2 : ∀ v ∈ videos, (mget tr v.id).isSome) :
    updateTrackedVideos tr videos host now = tr := by
  unfold updateTrackedVideos
  have hfil : tr.filter (fun e => videos.any (fun v => v.id == e.1)) = tr :=
    List.filter_eq_self.mpr h1
  rw [hfil]
  exact trackFold_id h2

theorem keys_nodup_filter {tr : TrackedMap} {q : ℕ × VideoState → Bool}
    (h : (tr.map Prod.fst).Nodup) : ((tr.filter q).map Prod.fst).Nodup :=
  h.sublist ((List.filter_sublist tr).map Prod.fst)

theorem keys_nodup_append_fresh {m : TrackedMap} {k : ℕ} {st : VideoState}
    (h : (m.map Prod.fst).Nodup) (hk : mget m k = none) :
    ((m ++ [(k, st)]).map Prod.fst).Nodup := by
  have hfind : m.find? (fun e => e.1 == k) = none := by
    unfold mget at hk
    cases hf : m.find? (fun e => e.1 == k) with
    | none => rfl
    | some e' => rw [hf] at hk; simp at hk
  have hnotmem : k ∉ m.map Prod.fst := by
    intro hx
    obtain ⟨e, he, hek⟩ := List.mem_map.mp hx
    have := List.find?_eq_none.mp hfind e he
    simp at this
    exact this hek
  rw [List.map_append]
  apply List.Nodup.append h (by simp)
  intro x hx hx'
  simp at hx'
  subst hx'
  exact hnotmem hx

theorem keys_nodup_trackFold {videos : List Video} {host : Host} {now : ℤ} :
    ∀ {m : TrackedMap}, (m.map Prod.fst).Nodup →
      ((videos.foldl (trackAddStep host now) m).map Prod.fst).Nodup := by
  induction videos with
  | nil => intro m h; exact h
  | cons a t ih =>
    intro m h
    rw [List.foldl_cons]
    apply ih
    unfold trackAddStep
    by_cases hp : (mget m a.id).isSome
    · rwa [if_pos hp]
    · rw [if_neg hp]
      have hnone : mget m a.id = none := by
        cases hm : mget m a.id with
        | none => rfl
        | some st' => rw [hm] at hp; simp at hp
      exact keys_nodup_append_fresh h hnone

theorem keys_nodup_updateTracked {tr : TrackedMap} {videos : List Video}
    {host : Host} {now : ℤ} (h : (tr.map Prod.fst).Nodup) :
    ((updateTrackedVideos tr videos host now).map Prod.fst).Nodup := by
  unfold updateTrackedVideos
  exact keys_nodup_trackFold (keys_nodup_filter h)

theorem keys_nodup_mset {m : TrackedMap} {k : ℕ} {st : VideoState}
    (h : (m.map Prod.fst).Nodup) : ((mset m k st).map Prod.fst).Nodup := by
  unfold mset
  by_cases hp : (mget m k).isSome
  · rw [if_pos hp]
    have : (m.map (fun e => if e.1 == k then (k, st) else e)).map Prod.fst =
        m.map Prod.fst := by
      rw [List.map_map]
      apply List.map_congr_left
      intro e _
      by_cases he : (e.1 == k) = true
      · simp [Function.comp, he, (beq_iff_eq.mp he).symm]
      · simp [Function.comp, he]
    rwa [this]
  · rw [if_neg hp]
    have hnone : mget m k = none := by
      cases hm : mget m k with
      | none => rfl
      | some st' => rw [hm] at hp; simp at hp
    exact keys_nodup_append_fresh h hnone

end UpdateTrackedLemmas

/-! ## Lemmas: playback-rate reads and writes -/

section RateLemmas

theorem setRate_eq_map (dom : List Video) (k : ℕ) (r : JSNum) :
    setRate dom k r = dom.map (adjVid k r) := rfl

theorem adjVid_id (k : ℕ) (r : JSNum) (v : Video) : (adjVid k r v).id = v.id := by
  unfold adjVid; split <;> rfl

theorem adjVid_paused (k : ℕ) (r : JSNum) (v : Video) :
    (adjVid k r v).paused = v.paused := by
  unfold adjVid; split <;> rfl

theorem adjVid_ended (k : ℕ) (r : JSNum) (v : Video) :
    (adjVid k r v).ended = v.ended := by
  unfold adjVid; split <;> rfl

theorem adjVid_area (k : ℕ) (r : JSNum) (v : Video) :
    area (adjVid k r v) = area v := by
  unfold adjVid area; split <;> rfl

theorem adjVid_playing (k : ℕ) (r : JSNum) (v : Video) :
    playingPred (adjVid k r v) = playingPred v := by
  unfold adjVid playingPred; split <;> rfl

theorem rateAt_isSome_iff {dom : List Video} {k : ℕ} :
    (rateAt dom k).isSome ↔ ∃ v ∈ dom, v.id = k := by
  unfold rateAt
  rw [Option.isSome_map']
  rw [List.find?_isSome]
  constructor
  · rintro ⟨v, hv, hp⟩
    exact ⟨v, hv, by simpa using hp⟩
  · rintro ⟨v, hv, hp⟩
    exact ⟨v, hv, by simpa using hp⟩

theorem rateAt_setRate_self {dom : List Video} {k : ℕ} (r : JSNum)
    (h : (rateAt dom k).isSome) : rateAt (setRate dom k r) k = some r := by
  induction dom with
  | nil => simp [rateAt] at h
  | cons v t ih =>
    by_cases hv : (v.id == k) = true
    · rw [setRate_eq_map, List.map_cons]
      unfold rateAt
      have : (adjVid k r v).id = v.id := adjVid_id k r v
      rw [List.find?_cons_of_pos _ (by simpa [this] using hv)]
      simp only [Option.map_some']
      unfold adjVid
      rw [if_pos hv]
    · have h' : (rateAt t k).isSome := by
        unfold rateAt at h ⊢
        rw [List.find?_cons_of_neg _ (by exact hv)] at h
        exact h
      have := ih h'
      rw [setRate_eq_map, List.map_cons]
      unfold rateAt at this ⊢
      rw [List.find?_cons_of_neg _ (by simpa [adjVid_id] using hv)]
      rwa [setRate_eq_map] at this

theorem rateAt_setRate_ne {dom : List Video} {j k : ℕ} (r : JSNum)
    (h : j ≠ k) : rateAt (setRate dom k r) j = rateAt dom j := by
  induction dom with
  | nil => rfl
  | cons v t ih =>
    rw [setRate_eq_map, List.map_cons]
    by_cases hv : (v.id == j) = true
    · have hvk : ¬ (v.id == k) = true := by
        simp at hv ⊢
        rw [hv]
        exact Ne.symm (fun he => h he.symm)
      unfold rateAt
      rw [List.find?_cons_of_pos _ (by simpa [adjVid_id] using hv),
          List.find?_cons_of_pos _ (by exact hv)]
      simp only [Option.map_some']
      unfold adjVid
      rw [if_neg hvk]
    · unfold rateAt
      rw [List.find?_cons_of_neg _ (by simpa [adjVid_id] using hv),
          List.find?_cons_of_neg _ (by exact hv)]
      have := ih
      rw [setRate_eq_map] at this
      unfold rateAt at this
      exact this

theorem mem_setRate_of_mem {dom : List Video} {v : Video} (k : ℕ) (r : JSNum)
    (h : v ∈ dom) : adjVid k r v ∈ setRate dom k r := by
  rw [setRate_eq_map]
  exact List.mem_map.mpr ⟨v, h, rfl⟩

theorem rateAt_setRate_isSome {dom : List Video} {j k : ℕ} (r : JSNum) :
    (rateAt (setRate dom k r) j).isSome ↔ (rateAt dom j).isSome := by
  rw [rateAt_isSome_iff, rateAt_isSome_iff]
  constructor
  · rintro ⟨v, hv, hid⟩
    rw [setRate_eq_map] at hv
    obtain ⟨u, hu, rfl⟩ := List.mem_map.mp hv
    exact ⟨u, hu, by rwa [adjVid_id] at hid⟩
  · rintro ⟨v, hv, hid⟩
    exact ⟨adjVid k r v, mem_setRate_of_mem k r hv, by rwa [adjVid_id]⟩

theorem rateAt_of_mem_nodup {dom : List Video} {v : Video}
    (hnd : (dom.map Video.id).Nodup) (hv : v ∈ dom) :
    rateAt dom v.id = some v.playbackRate := by
  induction dom with
  | nil => simp at hv
  | cons u t ih =>
    rw [List.map_cons] at hnd
    have hnd' := List.nodup_cons.mp hnd
    rcases List.mem_cons.mp hv with rfl | hv'
    · unfold rateAt
      rw [List.find?_cons_of_pos _ (by simp)]
      rfl
    · have hne : u.id ≠ v.id := by
        intro he
        exact hnd'.1 (by rw [he]; exact List.mem_map.mpr ⟨v, hv', rfl⟩)
      unfold rateAt
      rw [List.find?_cons_of_neg _ (by simp [hne])]
      exact ih hnd'.2 hv'

end RateLemmas

/-! ## Lemmas: the selection cascade -/

section SelectLemmas

theorem largestScan_eq_scanMax (l : List Video) :
    largestScan l = scanMax area (none, 0) l := rfl

theorem mriFold_eq_scanMax {tr : TrackedMap} {l : List Video}
    (h : ∀ v ∈ l, (mget tr v.id).isSome) :
    ∀ acc : Option Video × ℤ,
      l.foldl
        (fun acc v =>
          match mget tr v.id with
          | some st =>
              if acc.2 < st.lastInteraction then (some v, st.lastInteraction)
              else acc
          | none => acc) acc = scanMax (tsD tr) acc l := by
  induction l with
  | nil => intro acc; rfl
  | cons v t ih =>
    intro acc
    have hv := h v (List.mem_cons_self v t)
    cases hm : mget tr v.id with
    | none => rw [hm] at hv; simp at hv
    | some st =>
      have hts : tsD tr v = st.lastInteraction := by
        unfold tsD
        rw [hm]
        rfl
      rw [List.foldl_cons]
      have hstep :
          (match mget tr v.id with
           | some st =>
               if acc.2 < st.lastInteraction then (some v, st.lastInteraction)
               else acc
           | none => acc) =
          (if acc.2 < tsD tr v then (some v, tsD tr v) else acc) := by
        rw [hm, hts]
      rw [hstep]
      rw [ih (fun u hu => h u (List.mem_cons_of_mem v hu))]
      rfl

theorem mriScan_eq_scanMax {tr : TrackedMap} {l : List Video}
    (h : ∀ v ∈ l, (mget tr v.id).isSome) :
    mriScan tr l = scanMax (tsD tr) (none, 0) l :=
  mriFold_eq_scanMax h (none, 0)

theorem mri_eq_specMaxBy {tr : TrackedMap} {l : List Video} (hne : l ≠ [])
    (hall : ∀ v ∈ l, (mget tr v.id).isSome)
    (hpos : ∀ v ∈ l, 0 < tsD tr v) :
    getMostRecentlyInteracted tr l = specMaxBy (tsD tr) l := by
  unfold getMostRecentlyInteracted
  rw [mriScan_eq_scanMax hall, scanMax_eq_firstMax]
  cases hf : firstMax (tsD tr) l with
  | none => exact absurd (firstMax_eq_none_iff.mp hf) hne
  | some p =>
    obtain ⟨w, m⟩ := p
    have h0m : (0:ℤ) < m := by
      have hv := firstMax_val hf
      have hw := firstMax_mem hf
      rw [← hv]
      exact hpos w hw
    rw [specMaxBy_eq_firstMax, hf]
    simp [h0m]

theorem largest_eq_specMaxBy {l : List Video} (hne : l ≠ [])
    (hpos : ∀ v ∈ l, 0 < area v) :
    getLargestVideo l = specMaxBy area l := by
  unfold getLargestVideo
  rw [largestScan_eq_scanMax, scanMax_eq_firstMax]
  cases hf : firstMax area l with
  | none => exact absurd (firstMax_eq_none_iff.mp hf) hne
  | some p =>
    obtain ⟨w, m⟩ := p
    have h0m : (0:ℚ) < m := by
      have hv := firstMax_val hf
      have hw := firstMax_mem hf
      rw [← hv]
      exact hpos w hw
    rw [specMaxBy_eq_firstMax, hf]
    simp [h0m]

theorem mri_mem {tr : TrackedMap} {l : List Video} {v : Video}
    (h : getMostRecentlyInteracted tr l = some v) : v ∈ l := by
  unfold getMostRecentlyInteracted at h
  cases hs : (mriScan tr l).1 with
  | some w =>
    rw [hs] at h
    rw [Option.some_orElse] at h
    -- membership for the scan result
    have hmem : ∀ (l' : List Video) (acc : Option Video × ℤ),
        (l'.foldl
          (fun acc v =>
            match mget tr v.id with
            | some st =>
                if acc.2 < st.lastInteraction then (some v, st.lastInteraction)
                else acc
            | none => acc) acc).1 = some w →
        w ∈ l' ∨ acc.1 = some w := by
      intro l'
      induction l' with
      | nil =>
        intro acc hacc
        exact Or.inr hacc
      | cons a t ih =>
        intro acc hacc
        rw [List.foldl_cons] at hacc
        cases hm : mget tr a.id with
        | none =>
          have hstep : (match mget tr a.id with
              | some st =>
                  if acc.2 < st.lastInteraction then (some a, st.lastInteraction)
                  else acc
              | none => acc) = acc := by rw [hm]
          rw [hstep] at hacc
          rcases ih acc hacc with h' | h'
          · exact Or.inl (List.mem_cons_of_mem a h')
          · exact Or.inr h'
        | some st =>
          by_cases hlt : acc.2 < st.lastInteraction
          · have hstep : (match mget tr a.id with
                | some st =>
                    if acc.2 < st.lastInteraction then (some a, st.lastInteraction)
                    else acc
                | none => acc) = (some a, st.lastInteraction) := by
              rw [hm]
              exact if_pos hlt
            rw [hstep] at hacc
            rcases ih _ hacc with h' | h'
            · exact Or.inl (List.mem_cons_of_mem a h')
            · simp at h'
              subst h'
              exact Or.inl (List.mem_cons_self a t)
          · have hstep : (match mget tr a.id with
                | some st =>
                    if acc.2 < st.lastInteraction then (some a, st.lastInteraction)
                    else acc
                | none => acc) = acc := by
              rw [hm]
              exact if_neg hlt
            rw [hstep] at hacc
            rcases ih acc hacc with h' | h'
            · exact Or.inl (List.mem_cons_of_mem a h')
            · exact Or.inr h'
    have := hmem l (none, 0) hs
    rcases this with h' | h'
    · simp at h
      subst h
      exact h'
    · simp at h'
  | none =>
    rw [hs] at h
    rw [Option.none_orElse] at h
    cases l with
    | nil => simp at h
    | cons a t =>
      simp at h
      subst h
      exact List.mem_cons_self a t

theorem largest_mem {l : List Video} {v : Video}
    (h : getLargestVideo l = some v) : v ∈ l := by
  unfold getLargestVideo at h
  rw [largestScan_eq_scanMax, scanMax_eq_firstMax] at h
  cases hf : firstMax area l with
  | none => rw [hf] at h; simp at h
  | some p =>
    obtain ⟨w, m⟩ := p
    rw [hf] at h
    by_cases h0 : (0:ℚ) < m
    · simp [h0] at h
      subst h
      exact firstMax_mem hf
    · simp [h0] at h

theorem cascade_mem {tr : TrackedMap} {la : Option ℕ} {dom : List Video}
    {v : Video} (h : selectCascade tr la dom = some v) : v ∈ dom := by
  unfold selectCascade at h
  simp only [] at h
  -- analyse the `<|>` chain right to left
  cases ha1 : (if (dom.filter playingPred).length == 1 then (dom.filter playingPred).head?
      else if decide (1 < (dom.filter playingPred).length) then
        getMostRecentlyInteracted tr (dom.filter playingPred)
      else none) with
  | some w =>
    rw [ha1] at h
    rw [Option.some_orElse, Option.some_orElse, Option.some_orElse] at h
    simp at h
    subst h
    -- w came from level 1 or 2
    by_cases h1 : ((dom.filter playingPred).length == 1) = true
    · rw [if_pos h1] at ha1
      exact List.mem_of_mem_filter (List.mem_of_mem_head? ha1)
    · rw [if_neg h1] at ha1
      by_cases h2 : decide (1 < (dom.filter playingPred).length) = true
      · rw [if_pos h2] at ha1
        exact List.mem_of_mem_filter (mri_mem ha1)
      · rw [if_neg h2] at ha1
        simp at ha1
  | none =>
    rw [ha1] at h
    rw [Option.none_orElse] at h
    cases hla : (match la with
      | some k =>
          if dom.any (fun (v : Video) => v.id == k) then
            dom.find? (fun (v : Video) => v.id == k)
          else none
      | none => (none : Option Video)) with
    | some w =>
      rw [hla] at h
      rw [Option.some_orElse, Option.some_orElse] at h
      simp at h
      subst h
      cases la with
      | none => simp at hla
      | some k =>
        simp only [] at hla
        by_cases hany : dom.any (fun v => v.id == k) = true
        · rw [if_pos hany] at hla
          exact List.mem_of_find?_eq_some hla
        · rw [if_neg hany] at hla
          simp at hla
    | none =>
      rw [hla] at h
      rw [Option.none_orElse] at h
      cases hlg : getLargestVideo dom with
      | some w =>
        rw [hlg] at h
        rw [Option.some_orElse] at h
        simp at h
        subst h
        exact largest_mem hlg
      | none =>
        rw [hlg] at h
        rw [Option.none_orElse] at h
        exact List.mem_of_mem_head? h

theorem find?_id_nodup {dom : List Video} {v : Video}
    (hnd : (dom.map Video.id).Nodup) (hv : v ∈ dom) :
    dom.find? (fun u => u.id == v.id) = some v := by
  induction dom with
  | nil => simp at hv
  | cons u t ih =>
    rw [List.map_cons] at hnd
    have hnd' := List.nodup_cons.mp hnd
    rcases List.mem_cons.mp hv with rfl | hv'
    · rw [List.find?_cons_of_pos _ (by simp)]
    · have hne : u.id ≠ v.id := by
        intro he
        exact hnd'.1 (by rw [he]; exact List.mem_map.mpr ⟨v, hv', rfl⟩)
      rw [List.find?_cons_of_neg _ (by simp [hne])]
      exact ih hnd'.2 hv'

theorem nodup_ids_split {l₁ l₂ : List Video} {v : Video}
    (hnd : ((l₁ ++ v :: l₂).map Video.id).Nodup) :
    (∀ u ∈ l₁, u.id ≠ v.id) ∧ (∀ u ∈ l₂, u.id ≠ v.id) := by
  rw [List.map_append, List.map_cons] at hnd
  obtain ⟨hn₁, hn₂, hdisj⟩ := List.nodup_append.mp hnd
  have hvl₂ : v.id ∉ l₂.map Video.id := (List.nodup_cons.mp hn₂).1
  constructor
  · intro u hu he
    exact hdisj (List.mem_map.mpr ⟨u, hu, rfl⟩) (by rw [he]; exact List.mem_cons_self _ _)
  · intro u hu he
    exact hvl₂ (by rw [← he]; exact List.mem_map.mpr ⟨u, hu, rfl⟩)

theorem mri_isSome {tr : TrackedMap} {l : List Video} (hne : l ≠ []) :
    (getMostRecentlyInteracted tr l).isSome := by
  unfold getMostRecentlyInteracted
  cases hs : (mriScan tr l).1 with
  | some w => rw [Option.some_orElse]; rfl
  | none =>
    rw [Option.none_orElse]
    cases l with
    | nil => simp at hne
    | cons a t => simp

theorem cascade_of_one {tr : TrackedMap} {la : Option ℕ} {dom : List Video}
    {a : Video} (h : dom.filter playingPred = [a]) :
    selectCascade tr la dom = some a := by
  unfold selectCascade
  simp only []
  rw [h]
  simp

theorem cascade_of_many {tr : TrackedMap} {la : Option ℕ} {dom : List Video}
    {w : Video} (h2 : 1 < (dom.filter playingPred).length)
    (hm : getMostRecentlyInteracted tr (dom.filter playingPred) = some w) :
    selectCascade tr la dom = some w := by
  unfold selectCascade
  simp only []
  have h1 : ((dom.filter playingPred).length == 1) = false := by
    simp
    omega
  rw [h1]
  simp [h2, hm]

theorem cascade_of_empty_find {tr : TrackedMap} {dom : List Video} {k : ℕ}
    {w : Video} (h0 : dom.filter playingPred = [])
    (hf : dom.find? (fun (v : Video) => v.id == k) = some w) :
    selectCascade tr (some k) dom = some w := by
  unfold selectCascade
  simp only []
  rw [h0]
  have hany : dom.any (fun (v : Video) => v.id == k) = true :=
    List.any_eq_true.mpr ⟨w, List.mem_of_find?_eq_some hf,
      List.find?_some (p := fun (v : Video) => v.id == k) hf⟩
  simp [hany, hf]

theorem cascade_eq_spec {tr : TrackedMap} {la : Option ℕ} {dom : List Video}
    (hne : dom ≠ [])
    (hall : ∀ v ∈ dom, (mget tr v.id).isSome)
    (harea : ∀ v ∈ dom, 0 < area v)
    (hts : ∀ v ∈ dom, 0 < tsD tr v) :
    selectCascade tr la dom = selectActiveSpec tr la dom := by
  by_cases h1 : (dom.filter playingPred).length = 1
  · obtain ⟨a, ha⟩ := List.length_eq_one.mp h1
    rw [cascade_of_one ha]
    unfold selectActiveSpec
    simp only []
    rw [ha]
    simp
  · by_cases h2 : 1 < (dom.filter playingPred).length
    · have hne2 : dom.filter playingPred ≠ [] := by
        intro hnil
        rw [hnil] at h2
        simp at h2
      have hmri := mri_eq_specMaxBy hne2
        (fun v hv => hall v (List.mem_of_mem_filter hv))
        (fun v hv => hts v (List.mem_of_mem_filter hv))
      obtain ⟨w, hw⟩ : ∃ w, getMostRecentlyInteracted tr (dom.filter playingPred) = some w := by
        cases hmm : getMostRecentlyInteracted tr (dom.filter playingPred) with
        | none =>
          have := @mri_isSome tr _ hne2
          rw [hmm] at this
          simp at this
        | some w => exact ⟨w, rfl⟩
      rw [cascade_of_many h2 hw]
      unfold selectActiveSpec
      simp only []
      rw [if_neg h1, if_pos h2, ← hmri, hw]
    · have h0 : (dom.filter playingPred).length = 0 := by omega
      have h0' : dom.filter playingPred = [] := List.length_eq_zero.mp h0
      have hlg := largest_eq_specMaxBy hne harea
      cases la with
      | some k =>
        by_cases hany : dom.any (fun (v : Video) => v.id == k) = true
        · obtain ⟨x, hx, hpx⟩ := List.any_eq_true.mp hany
          obtain ⟨w, hw⟩ : ∃ w, dom.find? (fun (v : Video) => v.id == k) = some w := by
            cases hff : dom.find? (fun (v : Video) => v.id == k) with
            | none => exact absurd (List.find?_eq_none.mp hff x hx) (by simp_all)
            | some w => exact ⟨w, rfl⟩
          rw [cascade_of_empty_find h0' hw]
          unfold selectActiveSpec
          simp only []
          rw [if_neg h1, if_neg h2, hw]
        · have hfn : dom.find? (fun (v : Video) => v.id == k) = none := by
            rw [List.find?_eq_none]
            intro x hx hpx
            exact hany (List.any_eq_true.mpr ⟨x, hx, hpx⟩)
          unfold selectCascade selectActiveSpec
          simp only []
          rw [h0']
          simp [hany, hfn, hlg]
      | none =>
        unfold selectCascade selectActiveSpec
        simp only []
        rw [h0']
        simp [hlg]

/-- Stability of the cascade: once a video has been selected (its
timestamp bumped to `now` and itself remembered as last-active), the
cascade run again — possibly with further tracked-state changes that
preserve timestamps, and with any single playback rate rewritten —
selects the same element. -/
theorem cascade_again {tr tr₂ : TrackedMap} {la : Option ℕ} {dom : List Video}
    {v : Video} {now : ℤ}
    (hnd : (dom.map Video.id).Nodup)
    (hall : ∀ u ∈ dom, (mget tr u.id).isSome)
    (hts : ∀ k st, mget tr k = some st → st.lastInteraction ≤ now)
    (hpos : 0 < now)
    (hv : selectCascade tr la dom = some v)
    (hall₂ : ∀ u ∈ dom, (mget tr₂ u.id).isSome)
    (htr₂v : (mget tr₂ v.id).map (·.lastInteraction) = some now)
    (htr₂ : ∀ k, k ≠ v.id →
      (mget tr₂ k).map (·.lastInteraction) = (mget tr k).map (·.lastInteraction)) :
    selectCascade tr₂ (some v.id) dom = some v := by
  have hvdom : v ∈ dom := cascade_mem hv
  have htsD₂v : tsD tr₂ v = now := by
    unfold tsD
    rw [htr₂v]
    rfl
  have htsD₂ : ∀ u : Video, u.id ≠ v.id → tsD tr₂ u = tsD tr u := by
    intro u hu
    unfold tsD
    rw [htr₂ u.id hu]
  have htsDle : ∀ u ∈ dom, tsD tr u ≤ now := by
    intro u hu
    have hsome := hall u hu
    cases hm : mget tr u.id with
    | none => rw [hm] at hsome; simp at hsome
    | some st =>
      have : tsD tr u = st.lastInteraction := by
        unfold tsD
        rw [hm]
        rfl
      rw [this]
      exact hts u.id st hm
  by_cases h1 : (dom.filter playingPred).length = 1
  · obtain ⟨a, ha⟩ := List.length_eq_one.mp h1
    have h' := @cascade_of_one tr la _ _ ha
    rw [h'] at hv
    have hav : a = v := by simpa using hv
    rw [@cascade_of_one tr₂ (some v.id) _ _ ha, hav]
  · by_cases h2 : 1 < (dom.filter playingPred).length
    · have hne2 : dom.filter playingPred ≠ [] := by
        intro h
        rw [h] at h2
        simp at h2
      obtain ⟨w, hw⟩ : ∃ w,
          getMostRecentlyInteracted tr (dom.filter playingPred) = some w := by
        cases hmm : getMostRecentlyInteracted tr (dom.filter playingPred) with
        | none =>
          have := @mri_isSome tr _ hne2
          rw [hmm] at this
          simp at this
        | some w => exact ⟨w, rfl⟩
      have hcv := @cascade_of_many tr la _ _ h2 hw
      rw [hcv] at hv
      have hwv : w = v := by simpa using hv
      subst hwv
      have hndp : ((dom.filter playingPred).map Video.id).Nodup :=
        hnd.sublist ((List.filter_sublist dom).map Video.id)
      have hallp : ∀ u ∈ dom.filter playingPred, (mget tr u.id).isSome :=
        fun u hu => hall u (List.mem_of_mem_filter hu)
      have hallp₂ : ∀ u ∈ dom.filter playingPred, (mget tr₂ u.id).isSome :=
        fun u hu => hall₂ u (List.mem_of_mem_filter hu)
      have hvp : w ∈ dom.filter playingPred := mri_mem hw
      have hfm₂ : firstMax (tsD tr₂) (dom.filter playingPred) = some (w, now) := by
        unfold getMostRecentlyInteracted at hw
        rw [mriScan_eq_scanMax hallp, scanMax_eq_firstMax] at hw
        cases hf : firstMax (tsD tr) (dom.filter playingPred) with
        | none => exact absurd (firstMax_eq_none_iff.mp hf) hne2
        | some p =>
          obtain ⟨w', m⟩ := p
          simp only [hf] at hw
          by_cases h0m : (0:ℤ) < m
          · rw [if_pos h0m] at hw
            simp at hw
            subst hw
            obtain ⟨l₁, l₂, hsplit, hl₁, hl₂⟩ := firstMax_split hf
            have hmle : m ≤ now := by
              have := firstMax_val hf
              rw [← this]
              exact htsDle w' (List.mem_of_mem_filter hvp)
            have hnd' : ((l₁ ++ w' :: l₂).map Video.id).Nodup := by
              rw [← hsplit]
              exact hndp
            obtain ⟨hne₁, hne₂⟩ := nodup_ids_split hnd'
            rw [hsplit]
            apply firstMax_of_split htsD₂v
            · intro u hu
              rw [htsD₂ u (hne₁ u hu)]
              exact lt_of_lt_of_le (hl₁ u hu) hmle
            · intro u hu
              rw [htsD₂ u (hne₂ u hu)]
              exact le_trans (hl₂ u hu) hmle
          · rw [if_neg h0m] at hw
            have hw' : (dom.filter playingPred).head? = some w := by
              rw [show ((none : Option Video), (0:ℤ)).1 = none from rfl] at hw
              rwa [Option.none_orElse] at hw
            -- fallback: `w` is the head of the playing list
            cases hpl : dom.filter playingPred with
            | nil => exact absurd hpl hne2
            | cons a rest =>
              rw [hpl] at hw'
              have haw : a = w := by simpa using hw'
              subst haw
              have hle0 : ∀ u ∈ dom.filter playingPred, tsD tr u ≤ 0 := by
                intro u hu
                have := firstMax_le hf u hu
                exact le_trans this (not_lt.mp h0m)
              have hnd' : (((([] : List Video)) ++ a :: rest).map Video.id).Nodup := by
                rw [List.nil_append, ← hpl]
                exact hndp
              obtain ⟨_, hne₂⟩ := nodup_ids_split hnd'
              have hshape : (a :: rest) = ([] : List Video) ++ a :: rest := by simp
              rw [hshape]
              apply firstMax_of_split htsD₂v
              · intro u hu
                simp at hu
              · intro u hu
                rw [htsD₂ u (hne₂ u hu)]
                have : u ∈ dom.filter playingPred := by
                  rw [hpl]
                  exact List.mem_cons_of_mem a hu
                exact le_trans (hle0 u this) (le_of_lt hpos)
      apply cascade_of_many h2
      unfold getMostRecentlyInteracted
      rw [mriScan_eq_scanMax hallp₂, scanMax_eq_firstMax]
      simp only [hfm₂]
      rw [if_pos hpos]
      simp
    · have h0 : (dom.filter playingPred).length = 0 := by omega
      have h0' : dom.filter playingPred = [] := List.length_eq_zero.mp h0
      exact cascade_of_empty_find h0' (find?_id_nodup hnd hvdom)

theorem filter_playing_setRate (dom : List Video) (k : ℕ) (r : JSNum) :
    (setRate dom k r).filter playingPred =
      (dom.filter playingPred).map (adjVid k r) := by
  rw [setRate_eq_map]
  induction dom with
  | nil => rfl
  | cons u t ih =>
    rw [List.map_cons, List.filter_cons, List.filter_cons, adjVid_playing]
    by_cases hp : playingPred u = true
    · rw [if_pos hp, if_pos hp, List.map_cons, ih]
    · rw [if_neg hp, if_neg hp, ih]

theorem mriScan_setRate (tr : TrackedMap) (l : List Video) (k : ℕ) (r : JSNum) :
    ∀ (b : Option Video) (t0 : ℤ),
      (l.map (adjVid k r)).foldl
        (fun acc v =>
          match mget tr v.id with
          | some st =>
              if acc.2 < st.lastInteraction then (some v, st.lastInteraction)
              else acc
          | none => acc) (b.map (adjVid k r), t0) =
      (((l.foldl
        (fun acc v =>
          match mget tr v.id with
          | some st =>
              if acc.2 < st.lastInteraction then (some v, st.lastInteraction)
              else acc
          | none => acc) (b, t0)).1).map (adjVid k r),
        (l.foldl
        (fun acc v =>
          match mget tr v.id with
          | some st =>
              if acc.2 < st.lastInteraction then (some v, st.lastInteraction)
              else acc
          | none => acc) (b, t0)).2) := by
  induction l with
  | nil => intro b t0; rfl
  | cons u t ih =>
    intro b t0
    rw [List.map_cons]
    cases hm : mget tr u.id with
    | none =>
      rw [List.foldl_cons, List.foldl_cons]
      have hstep₂ : (match mget tr (adjVid k r u).id with
          | some st =>
              if ((b.map (adjVid k r) : Option Video), t0).2 < st.lastInteraction then
                (some (adjVid k r u), st.lastInteraction)
              else (b.map (adjVid k r), t0)
          | none => ((b.map (adjVid k r) : Option Video), t0)) =
          (b.map (adjVid k r), t0) := by
        rw [adjVid_id, hm]
      have hstep₁ : (match mget tr u.id with
          | some st =>
              if ((b : Option Video), t0).2 < st.lastInteraction then
                (some u, st.lastInteraction)
              else (b, t0)
          | none => ((b : Option Video), t0)) = (b, t0) := by
        rw [hm]
      rw [hstep₂, hstep₁]
      exact ih b t0
    | some st =>
      rw [List.foldl_cons, List.foldl_cons]
      by_cases hlt : t0 < st.lastInteraction
      · have hstep₂ : (match mget tr (adjVid k r u).id with
            | some st =>
                if ((b.map (adjVid k r) : Option Video), t0).2 < st.lastInteraction then
                  (some (adjVid k r u), st.lastInteraction)
                else (b.map (adjVid k r), t0)
            | none => ((b.map (adjVid k r) : Option Video), t0)) =
            ((some u).map (adjVid k r), st.lastInteraction) := by
          rw [adjVid_id, hm]
          exact if_pos hlt
        have hstep₁ : (match mget tr u.id with
            | some st =>
                if ((b : Option Video), t0).2 < st.lastInteraction then
                  (some u, st.lastInteraction)
                else (b, t0)
            | none => ((b : Option Video), t0)) = (some u, st.lastInteraction) := by
          rw [hm]
          exact if_pos hlt
        rw [hstep₂, hstep₁]
        exact ih (some u) st.lastInteraction
      · have hstep₂ : (match mget tr (adjVid k r u).id with
            | some st =>
                if ((b.map (adjVid k r) : Option Video), t0).2 < st.lastInteraction then
                  (some (adjVid k r u), st.lastInteraction)
                else (b.map (adjVid k r), t0)
            | none => ((b.map (adjVid k r) : Option Video), t0)) =
            (b.map (adjVid k r), t0) := by
          rw [adjVid_id, hm]
          exact if_neg hlt
        have hstep₁ : (match mget tr u.id with
            | some st =>
                if ((b : Option Video), t0).2 < st.lastInteraction then
                  (some u, st.lastInteraction)
                else (b, t0)
            | none => ((b : Option Video), t0)) = (b, t0) := by
          rw [hm]
          exact if_neg hlt
        rw [hstep₂, hstep₁]
        exact ih b t0

theorem mri_setRate (tr : TrackedMap) (l : List Video) (k : ℕ) (r : JSNum) :
    getMostRecentlyInteracted tr (l.map (adjVid k r)) =
      (getMostRecentlyInteracted tr l).map (adjVid k r) := by
  unfold getMostRecentlyInteracted mriScan
  have := mriScan_setRate tr l k r none 0
  rw [show ((none : Option Video).map (adjVid k r), (0:ℤ)) =
      ((none : Option Video), (0:ℤ)) from rfl] at this
  rw [this]
  cases hs : (l.foldl
      (fun acc v =>
        match mget tr v.id with
        | some st =>
            if acc.2 < st.lastInteraction then (some v, st.lastInteraction)
            else acc
        | none => acc) ((none : Option Video), (0:ℤ))).1 with
  | some w => simp
  | none =>
    simp only [Option.map_none', Option.none_orElse]
    cases l with
    | nil => rfl
    | cons a t => simp

theorem largestScan_setRate (l : List Video) (k : ℕ) (r : JSNum) :
    ∀ (b : Option Video) (t0 : ℚ),
      scanMax area (b.map (adjVid k r), t0) (l.map (adjVid k r)) =
      (((scanMax area (b, t0) l).1).map (adjVid k r), (scanMax area (b, t0) l).2) := by
  induction l with
  | nil => intro b t0; rfl
  | cons u t ih =>
    intro b t0
    unfold scanMax
    rw [List.map_cons, List.foldl_cons, List.foldl_cons]
    rw [show area (adjVid k r u) = area u from adjVid_area k r u]
    by_cases hlt : t0 < area u
    · rw [if_pos hlt, if_pos hlt]
      exact ih (some u) (area u)
    · rw [if_neg hlt, if_neg hlt]
      exact ih b t0

theorem largest_setRate (l : List Video) (k : ℕ) (r : JSNum) :
    getLargestVideo (l.map (adjVid k r)) =
      (getLargestVideo l).map (adjVid k r) := by
  unfold getLargestVideo
  rw [largestScan_eq_scanMax, largestScan_eq_scanMax]
  have := largestScan_setRate l k r none 0
  rw [show ((none : Option Video).map (adjVid k r), (0:ℚ)) =
      ((none : Option Video), (0:ℚ)) from rfl] at this
  rw [this]

theorem find?_id_setRate (l : List Video) (k k' : ℕ) (r : JSNum) :
    (l.map (adjVid k r)).find? (fun u => u.id == k') =
      (l.find? (fun u => u.id == k')).map (adjVid k r) := by
  induction l with
  | nil => rfl
  | cons u t ih =>
    rw [List.map_cons]
    by_cases hp : (u.id == k') = true
    · rw [List.find?_cons_of_pos _ (by simpa [adjVid_id] using hp),
          List.find?_cons_of_pos _ (by exact hp)]
      rfl
    · rw [List.find?_cons_of_neg _ (by simpa [adjVid_id] using hp),
          List.find?_cons_of_neg _ (by exact hp)]
      exact ih

theorem any_id_setRate (l : List Video) (k k' : ℕ) (r : JSNum) :
    (l.map (adjVid k r)).any (fun u => u.id == k') =
      l.any (fun u => u.id == k') := by
  induction l with
  | nil => rfl
  | cons u t ih =>
    rw [List.map_cons, List.any_cons, List.any_cons, adjVid_id, ih]

theorem cascade_setRate (tr : TrackedMap) (la : Option ℕ) (dom : List Video)
    (k : ℕ) (r : JSNum) :
    selectCascade tr la (setRate dom k r) =
      (selectCascade tr la dom).map (adjVid k r) := by
  unfold selectCascade
  simp only []
  rw [filter_playing_setRate, setRate_eq_map]
  rw [List.length_map]
  rw [show (dom.filter playingPred).map (adjVid k r) =
      setRate (dom.filter playingPred) k r from (setRate_eq_map _ k r).symm]
  by_cases h1 : ((dom.filter playingPred).length == 1) = true
  · rw [if_pos h1, if_pos h1]
    rw [setRate_eq_map, List.head?_map]
    cases hh : (dom.filter playingPred).head? with
    | some a => simp
    | none =>
      simp only [Option.map_none', Option.none_orElse]
      -- playing empty contradicts length 1; but handle uniformly
      have : (dom.filter playingPred).length = 1 := by simpa using h1
      rw [List.head?_eq_none_iff] at hh
      rw [hh] at this
      simp at this
  · rw [if_neg h1, if_neg h1]
    by_cases h2 : decide (1 < (dom.filter playingPred).length) = true
    · rw [if_pos h2, if_pos h2]
      rw [setRate_eq_map, mri_setRate]
      cases hm : getMostRecentlyInteracted tr (dom.filter playingPred) with
      | some w => simp
      | none =>
        simp only [Option.map_none', Option.none_orElse]
        have hlen : 1 < (dom.filter playingPred).length := by simpa using h2
        have hne : dom.filter playingPred ≠ [] := by
          intro h
          rw [h] at hlen
          simp at hlen
        have := @mri_isSome tr _ hne
        rw [hm] at this
        simp at this
    · rw [if_neg h2, if_neg h2]
      simp only [Option.none_orElse]
      cases la with
      | none =>
        simp only []
        rw [largest_setRate]
        cases hl : getLargestVideo dom with
        | some w => simp
        | none =>
          simp only [Option.map_none', Option.none_orElse]
          rw [List.head?_map]
      | some k' =>
        simp only []
        rw [any_id_setRate, find?_id_setRate]
        by_cases hany : dom.any (fun u => u.id == k') = true
        · rw [if_pos hany, if_pos hany]
          cases hf : dom.find? (fun u => u.id == k') with
          | some w => simp
          | none =>
            simp only [Option.map_none', Option.none_orElse]
            rw [largest_setRate]
            cases hl : getLargestVideo dom with
            | some w => simp
            | none =>
              simp only [Option.map_none', Option.none_orElse]
              rw [List.head?_map]
        · rw [if_neg hany, if_neg hany]
          simp only [Option.none_orElse]
          rw [largest_setRate]
          cases hl : getLargestVideo dom with
          | some w => simp
          | none =>
            simp only [Option.map_none', Option.none_orElse]
            rw [List.head?_map]

end SelectLemmas

/-! ## Lemmas: `getActiveVideo` -/

section GetActiveLemmas

theorem getActiveVideo_nil (c : Ctrl) (now : ℤ) :
    getActiveVideo c [] now =
      (none,
        { c with
          tracked := updateTrackedVideos c.tracked [] c.host now,
          lastActive := none }) := rfl

theorem getActiveVideo_single (c : Ctrl) (v : Video) (now : ℤ) :
    getActiveVideo c [v] now =
      (some v,
        { c with
          tracked := updateTrackedVideos c.tracked [v] c.host now,
          lastActive := some v.id }) := rfl

theorem getActiveVideo_multi (c : Ctrl) (a b : Video) (t : List Video) (now : ℤ) :
    getActiveVideo c (a :: b :: t) now =
      match selectCascade (updateTrackedVideos c.tracked (a :: b :: t) c.host now)
          c.lastActive (a :: b :: t) with
      | some v =>
          (some v,
            { c with
              tracked :=
                (match mget (updateTrackedVideos c.tracked (a :: b :: t) c.host now) v.id with
                 | some st =>
                     mset (updateTrackedVideos c.tracked (a :: b :: t) c.host now) v.id
                       { st with lastInteraction := now }
                 | none => updateTrackedVideos c.tracked (a :: b :: t) c.host now),
              lastActive := some v.id })
      | none =>
          (none,
            { c with
              tracked := updateTrackedVideos c.tracked (a :: b :: t) c.host now,
              lastActive := none }) := rfl

theorem getActive_fst_multi {c : Ctrl} {dom : List Video} {now : ℤ}
    (h2 : 2 ≤ dom.length) :
    (getActiveVideo c dom now).1 =
      selectCascade (updateTrackedVideos c.tracked dom c.host now)
        c.lastActive dom := by
  match dom with
  | [] => simp at h2
  | [u] => simp at h2
  | a :: b :: t =>
    rw [getActiveVideo_multi]
    cases hs : selectCascade (updateTrackedVideos c.tracked (a :: b :: t) c.host now)
        c.lastActive (a :: b :: t) with
    | none => simp only [hs]
    | some w => simp only [hs]

theorem getActive_mem {c : Ctrl} {dom : List Video} {now : ℤ} {v : Video}
    (h : (getActiveVideo c dom now).1 = some v) : v ∈ dom := by
  match dom with
  | [] => rw [getActiveVideo_nil] at h; simp at h
  | [u] =>
    rw [getActiveVideo_single] at h
    simp at h
    subst h
    exact List.mem_singleton_self u
  | a :: b :: t =>
    rw [getActiveVideo_multi] at h
    cases hs : selectCascade (updateTrackedVideos c.tracked (a :: b :: t) c.host now)
        c.lastActive (a :: b :: t) with
    | none => simp only [hs] at h; simp at h
    | some w =>
      simp only [hs] at h
      simp at h
      subst h
      exact cascade_mem hs

theorem getActive_lastActive {c : Ctrl} {dom : List Video} {now : ℤ} {v : Video}
    (h : (getActiveVideo c dom now).1 = some v) :
    ((getActiveVideo c dom now).2).lastActive = some v.id := by
  match dom with
  | [] => rw [getActiveVideo_nil] at h; simp at h
  | [u] =>
    rw [getActiveVideo_single] at h ⊢
    simp at h
    subst h
    rfl
  | a :: b :: t =>
    rw [getActiveVideo_multi] at h ⊢
    cases hs : selectCascade (updateTrackedVideos c.tracked (a :: b :: t) c.host now)
        c.lastActive (a :: b :: t) with
    | none => simp only [hs] at h; simp at h
    | some w =>
      simp only [hs] at h ⊢
      simp at h
      subst h
      rfl

theorem getActive_host {c : Ctrl} {dom : List Video} {now : ℤ} :
    ((getActiveVideo c dom now).2).host = c.host := by
  match dom with
  | [] => rfl
  | [u] => rfl
  | a :: b :: t =>
    rw [getActiveVideo_multi]
    cases hs : selectCascade (updateTrackedVideos c.tracked (a :: b :: t) c.host now)
        c.lastActive (a :: b :: t) with
    | none => rfl
    | some w =>
      cases hm : mget (updateTrackedVideos c.tracked (a :: b :: t) c.host now) w.id with
      | none => rfl
      | some st => rfl

theorem getActive_tracked_preserve {c : Ctrl} {dom : List Video} {now : ℤ}
    {k : ℕ} {st : VideoState}
    (hmk : mget c.tracked k = some st)
    (hany : dom.any (fun u => u.id == k)) :
    ∃ st', mget ((getActiveVideo c dom now).2).tracked k = some st' ∧
      st'.originalRate = st.originalRate ∧
      st'.isSpeedBoosted = st.isSpeedBoosted ∧
      st'.platform = st.platform := by
  have hupd := @updateTracked_preserve c.tracked dom c.host now k st hany hmk
  match dom with
  | [] =>
    rw [getActiveVideo_nil]
    exact ⟨st, hupd, rfl, rfl, rfl⟩
  | [u] =>
    rw [getActiveVideo_single]
    exact ⟨st, hupd, rfl, rfl, rfl⟩
  | a :: b :: t =>
    rw [getActiveVideo_multi]
    cases hs : selectCascade (updateTrackedVideos c.tracked (a :: b :: t) c.host now)
        c.lastActive (a :: b :: t) with
    | none =>
      simp only [hs]
      exact ⟨st, hupd, rfl, rfl, rfl⟩
    | some w =>
      simp only [hs]
      cases hm : mget (updateTrackedVideos c.tracked (a :: b :: t) c.host now) w.id with
      | none =>
        simp only [hm]
        exact ⟨st, hupd, rfl, rfl, rfl⟩
      | some stw =>
        simp only [hm]
        by_cases hkw : k = w.id
        · subst hkw
          rw [hupd] at hm
          have hstw : stw = st := by simpa using hm.symm
          subst hstw
          exact ⟨{ stw with lastInteraction := now }, mget_mset_self _ _ _, rfl, rfl, rfl⟩
        · exact ⟨st, by rw [mget_mset_ne _ hkw]; exact hupd, rfl, rfl, rfl⟩

theorem getActive_allSome {c : Ctrl} {dom : List Video} {now : ℤ} {u : Video}
    (hu : u ∈ dom) :
    (mget ((getActiveVideo c dom now).2).tracked u.id).isSome := by
  have hupd := @updateTracked_isSome c.tracked dom c.host now u hu
  match dom with
  | [] => simp at hu
  | [w] =>
    rw [getActiveVideo_single]
    exact hupd
  | a :: b :: t =>
    rw [getActiveVideo_multi]
    cases hs : selectCascade (updateTrackedVideos c.tracked (a :: b :: t) c.host now)
        c.lastActive (a :: b :: t) with
    | none => simp only [hs]; exact hupd
    | some w =>
      simp only [hs]
      cases hm : mget (updateTrackedVideos c.tracked (a :: b :: t) c.host now) w.id with
      | none => simp only [hm]; exact hupd
      | some stw =>
        simp only [hm]
        by_cases hkw : u.id = w.id
        · rw [hkw, mget_mset_self]
          rfl
        · rw [mget_mset_ne _ hkw]
          exact hupd

theorem mset_keys_prop {m : TrackedMap} {k : ℕ} {st : VideoState}
    {P : ℕ → Prop} (hm : ∀ e ∈ m, P e.1) (hk : P k) :
    ∀ e ∈ mset m k st, P e.1 := by
  intro e he
  unfold mset at he
  by_cases hp : (mget m k).isSome
  · rw [if_pos hp] at he
    obtain ⟨e₀, he₀, rfl⟩ := List.mem_map.mp he
    by_cases h0 : (e₀.1 == k) = true
    · rw [if_pos h0]
      exact hk
    · rw [if_neg h0]
      exact hm e₀ he₀
  · rw [if_neg hp] at he
    rcases List.mem_append.mp he with h' | h'
    · exact hm _ h'
    · simp at h'
      subst h'
      exact hk

theorem getActive_keys {c : Ctrl} {dom : List Video} {now : ℤ} :
    ∀ e ∈ ((getActiveVideo c dom now).2).tracked,
      dom.any (fun u => u.id == e.1) := by
  match dom with
  | [] =>
    rw [getActiveVideo_nil]
    intro e he
    exact @updateTracked_keys c.tracked [] c.host now e he
  | [u] =>
    rw [getActiveVideo_single]
    intro e he
    exact @updateTracked_keys c.tracked [u] c.host now e he
  | a :: b :: t =>
    rw [getActiveVideo_multi]
    cases hs : selectCascade (updateTrackedVideos c.tracked (a :: b :: t) c.host now)
        c.lastActive (a :: b :: t) with
    | none =>
      simp only [hs]
      intro e he
      exact @updateTracked_keys c.tracked (a :: b :: t) c.host now e he
    | some w =>
      simp only [hs]
      cases hm : mget (updateTrackedVideos c.tracked (a :: b :: t) c.host now) w.id with
      | none =>
        simp only [hm]
        intro e he
        exact @updateTracked_keys c.tracked (a :: b :: t) c.host now e he
      | some stw =>
        simp only [hm]
        intro e he
        have hwmem : w ∈ a :: b :: t := cascade_mem hs
        exact @mset_keys_prop (updateTrackedVideos c.tracked (a :: b :: t) c.host now)
          w.id { stw with lastInteraction := now }
          (fun key => (a :: b :: t).any (fun u => u.id == key) = true)
          (fun e' he' => @updateTracked_keys c.tracked (a :: b :: t) c.host now e' he')
          (List.any_eq_true.mpr ⟨w, hwmem, beq_self_eq_true w.id⟩) e he

theorem getActive_keys_nodup {c : Ctrl} {dom : List Video} {now : ℤ}
    (h : (c.tracked.map Prod.fst).Nodup) :
    ((((getActiveVideo c dom now).2).tracked).map Prod.fst).Nodup := by
  have hupd := @keys_nodup_updateTracked c.tracked dom c.host now h
  match dom with
  | [] => rw [getActiveVideo_nil]; exact hupd
  | [u] => rw [getActiveVideo_single]; exact hupd
  | a :: b :: t =>
    rw [getActiveVideo_multi]
    cases hs : selectCascade (updateTrackedVideos c.tracked (a :: b :: t) c.host now)
        c.lastActive (a :: b :: t) with
    | none => simp only [hs]; exact hupd
    | some w =>
      simp only [hs]
      cases hm : mget (updateTrackedVideos c.tracked (a :: b :: t) c.host now) w.id with
      | none => simp only [hm]; exact hupd
      | some stw => simp only [hm]; exact keys_nodup_mset hupd

theorem getActive_multi_ts {c : Ctrl} {dom : List Video} {now : ℤ} {v : Video}
    (h2 : 2 ≤ dom.length) (h : (getActiveVideo c dom now).1 = some v) :
    (mget ((getActiveVideo c dom now).2).tracked v.id).map (·.lastInteraction) =
      some now := by
  match dom with
  | [] => simp at h2
  | [u] => simp at h2
  | a :: b :: t =>
    rw [getActiveVideo_multi] at h ⊢
    cases hs : selectCascade (updateTrackedVideos c.tracked (a :: b :: t) c.host now)
        c.lastActive (a :: b :: t) with
    | none => simp only [hs] at h; simp at h
    | some w =>
      simp only [hs] at h ⊢
      simp at h
      subst h
      have hmem : w ∈ a :: b :: t := cascade_mem hs
      have hsome := @updateTracked_isSome c.tracked (a :: b :: t) c.host now w hmem
      cases hm : mget (updateTrackedVideos c.tracked (a :: b :: t) c.host now) w.id with
      | none => rw [hm] at hsome; simp at hsome
      | some stv =>
        simp only [hm]
        rw [mget_mset_self]
        rfl

theorem getActive_single_preserve {c : Ctrl} {u : Video} {now : ℤ}
    {st : VideoState}
    (h : mget c.tracked u.id = some st) :
    mget ((getActiveVideo c [u] now).2).tracked u.id = some st := by
  rw [getActiveVideo_single]
  exact updateTracked_preserve (by simp) h

/-- A second `getActiveVideo` call — after a first call selected `v`,
with tracked-state changes that preserve timestamps and any single
playback-rate write in between — selects the same element again. -/
theorem getActive_again {c c₂ : Ctrl} {dom : List Video} {v : Video}
    {now₁ : ℤ} (now₂ : ℤ) {k₀ : ℕ} {r : JSNum}
    (hnd : (dom.map Video.id).Nodup)
    (hts : ∀ k st,
      mget (updateTrackedVideos c.tracked dom c.host now₁) k = some st →
      st.lastInteraction ≤ now₁)
    (hpos : 0 < now₁)
    (hsel : (getActiveVideo c dom now₁).1 = some v)
    (hla₂ : c₂.lastActive = some v.id)
    (hall₂ : ∀ u ∈ dom, (mget c₂.tracked u.id).isSome)
    (hkeys₂ : ∀ e ∈ c₂.tracked, dom.any (fun u => u.id == e.1))
    (hts₂v : 2 ≤ dom.length →
      (mget c₂.tracked v.id).map (·.lastInteraction) = some now₁)
    (hts₂o : ∀ k, k ≠ v.id →
      (mget c₂.tracked k).map (·.lastInteraction) =
      (mget (updateTrackedVideos c.tracked dom c.host now₁) k).map (·.lastInteraction)) :
    (getActiveVideo c₂ (setRate dom k₀ r) now₂).1 = some (adjVid k₀ r v) := by
  match dom with
  | [] =>
    rw [getActiveVideo_nil] at hsel
    simp at hsel
  | [u] =>
    rw [getActiveVideo_single] at hsel
    simp at hsel
    subst hsel
    rw [show setRate [u] k₀ r = [adjVid k₀ r u] from rfl, getActiveVideo_single]
  | a :: b :: t =>
    have h2 : 2 ≤ (a :: b :: t).length := by simp
    have hcas : selectCascade
        (updateTrackedVideos c.tracked (a :: b :: t) c.host now₁)
        c.lastActive (a :: b :: t) = some v := by
      rw [← getActive_fst_multi h2]
      exact hsel
    have hall₁ : ∀ u ∈ (a :: b :: t),
        (mget (updateTrackedVideos c.tracked (a :: b :: t) c.host now₁) u.id).isSome :=
      fun u hu => @updateTracked_isSome c.tracked (a :: b :: t) c.host now₁ u hu
    have hagain := cascade_again hnd hall₁ hts hpos hcas hall₂ (hts₂v h2) hts₂o
    have hupd : updateTrackedVideos c₂.tracked
        (adjVid k₀ r a :: adjVid k₀ r b :: t.map (adjVid k₀ r)) c₂.host now₂ =
        c₂.tracked := by
      apply updateTracked_id
      · intro e he
        obtain ⟨x, hx, hpx⟩ := List.any_eq_true.mp (hkeys₂ e he)
        refine List.any_eq_true.mpr ⟨adjVid k₀ r x, ?_, ?_⟩
        · have := @mem_setRate_of_mem (a :: b :: t) x k₀ r hx
          rwa [show setRate (a :: b :: t) k₀ r =
            adjVid k₀ r a :: adjVid k₀ r b :: t.map (adjVid k₀ r) from rfl] at this
        · rw [adjVid_id]
          exact hpx
      · intro u hu
        have hu' : u ∈ (a :: b :: t).map (adjVid k₀ r) := hu
        obtain ⟨u₀, hu₀, rfl⟩ := List.mem_map.mp hu'
        rw [adjVid_id]
        exact hall₂ u₀ hu₀
    have hcs : selectCascade c₂.tracked (some v.id)
        (adjVid k₀ r a :: adjVid k₀ r b :: t.map (adjVid k₀ r)) =
        some (adjVid k₀ r v) := by
      rw [show (adjVid k₀ r a :: adjVid k₀ r b :: t.map (adjVid k₀ r)) =
        setRate (a :: b :: t) k₀ r from rfl]
      rw [cascade_setRate, hagain]
      rfl
    rw [show setRate (a :: b :: t) k₀ r =
      adjVid k₀ r a :: adjVid k₀ r b :: t.map (adjVid k₀ r) from rfl]
    rw [getActiveVideo_multi, hupd, hla₂, hcs]

theorem mset_isSome_preserve {m : TrackedMap} {j k : ℕ} (st : VideoState)
    (h : (mget m j).isSome) : (mget (mset m k st) j).isSome := by
  by_cases hjk : j = k
  · subst hjk
    rw [mget_mset_self]
    rfl
  · rw [mget_mset_ne _ hjk]
    exact h

end GetActiveLemmas

/-! ## Lemmas: `applySpeedBoost` and `restoreOriginalSpeed` -/

section BoostLemmas

theorem applySpeedBoost_boost {c : Ctrl} {dom : List Video} {now : ℤ}
    {v : Video} {st : VideoState} {n : JSNum}
    (hsel : (getActiveVideo c dom now).1 = some v)
    (hst : mget ((getActiveVideo c dom now).2).tracked v.id = some st)
    (hb : st.isSpeedBoosted = false)
    (h0 : n.jsLeZero = false) (h16 : n.jsGtSixteen = false) :
    applySpeedBoost c dom now (.num n) =
      (true,
       { (getActiveVideo c dom now).2 with
         tracked := mset ((getActiveVideo c dom now).2).tracked v.id
           { st with originalRate := v.playbackRate, isSpeedBoosted := true } },
       setRate dom v.id n) := by
  rcases he : getActiveVideo c dom now with ⟨av, c'⟩
  rw [he] at hsel hst
  simp only [] at hsel hst
  subst hsel
  delta applySpeedBoost
  rw [he]
  simp only [hst, hb, h0, h16]
  simp

theorem applySpeedBoost_boosted {c : Ctrl} {dom : List Video} {now : ℤ}
    {v : Video} {st : VideoState} (m : JSVal)
    (hsel : (getActiveVideo c dom now).1 = some v)
    (hst : mget ((getActiveVideo c dom now).2).tracked v.id = some st)
    (hb : st.isSpeedBoosted = true) :
    applySpeedBoost c dom now m = (true, (getActiveVideo c dom now).2, dom) := by
  rcases he : getActiveVideo c dom now with ⟨av, c'⟩
  rw [he] at hsel hst
  simp only [] at hsel hst
  subst hsel
  delta applySpeedBoost
  rw [he]
  simp only [hst, hb]
  simp

theorem applySpeedBoost_invalid {c : Ctrl} {dom : List Video} {now : ℤ}
    {v : Video} {st : VideoState} {m : JSVal}
    (hsel : (getActiveVideo c dom now).1 = some v)
    (hst : mget ((getActiveVideo c dom now).2).tracked v.id = some st)
    (hb : st.isSpeedBoosted = false)
    (hinv : invalidMultiplier m = true) :
    applySpeedBoost c dom now m = (false, (getActiveVideo c dom now).2, dom) := by
  rcases he : getActiveVideo c dom now with ⟨av, c'⟩
  rw [he] at hsel hst
  simp only [] at hsel hst
  subst hsel
  delta applySpeedBoost
  rw [he]
  cases m with
  | nonNumber => simp [hst, hb]
  | num n =>
    have hor : (n.jsLeZero || n.jsGtSixteen) = true := by
      simpa [invalidMultiplier] using hinv
    simp only [hst, hb]
    simp [hor]

theorem restoreOriginalSpeed_boosted {c : Ctrl} {dom : List Video} {now : ℤ}
    {v : Video} {st : VideoState}
    (hsel : (getActiveVideo c dom now).1 = some v)
    (hst : mget ((getActiveVideo c dom now).2).tracked v.id = some st)
    (hb : st.isSpeedBoosted = true) :
    restoreOriginalSpeed c dom now =
      (true,
       { (getActiveVideo c dom now).2 with
         tracked := mset ((getActiveVideo c dom now).2).tracked v.id
           { st with isSpeedBoosted := false } },
       setRate dom v.id st.originalRate) := by
  rcases he : getActiveVideo c dom now with ⟨av, c'⟩
  rw [he] at hsel hst
  simp only [] at hsel hst
  subst hsel
  delta restoreOriginalSpeed
  rw [he]
  simp only [hst, hb]
  simp

theorem restoreOriginalSpeed_notBoosted {c : Ctrl} {dom : List Video} {now : ℤ}
    {v : Video} {st : VideoState}
    (hsel : (getActiveVideo c dom now).1 = some v)
    (hst : mget ((getActiveVideo c dom now).2).tracked v.id = some st)
    (hb : st.isSpeedBoosted = false) :
    restoreOriginalSpeed c dom now = (true, (getActiveVideo c dom now).2, dom) := by
  rcases he : getActiveVideo c dom now with ⟨av, c'⟩
  rw [he] at hsel hst
  simp only [] at hsel hst
  subst hsel
  delta restoreOriginalSpeed
  rw [he]
  simp only [hst, hb]
  simp

theorem restoreOriginalSpeed_none {c : Ctrl} {dom : List Video} {now : ℤ}
    (hsel : (getActiveVideo c dom now).1 = none) :
    restoreOriginalSpeed c dom now = (false, (getActiveVideo c dom now).2, dom) := by
  rcases he : getActiveVideo c dom now with ⟨av, c'⟩
  rw [he] at hsel
  simp only [] at hsel
  subst hsel
  delta restoreOriginalSpeed
  rw [he]

end BoostLemmas

/-! ## Lemmas: `resetAllSpeeds` -/

section ResetAllLemmas

theorem resetFold_flags :
    ∀ (l : TrackedMap) (a : TrackedMap) (d : List Video) (n : ℕ),
      (∀ e ∈ a, e.2.isSpeedBoosted = false) →
      ∀ e ∈ (l.foldl
        (fun (acc : TrackedMap × List Video × ℕ) e =>
          if e.2.isSpeedBoosted then
            (acc.1 ++ [(e.1, { e.2 with isSpeedBoosted := false })],
             setRate acc.2.1 e.1 e.2.originalRate, acc.2.2 + 1)
          else (acc.1 ++ [e], acc.2.1, acc.2.2)) (a, d, n)).1,
        e.2.isSpeedBoosted = false := by
  intro l
  induction l with
  | nil => intro a d n ha e he; exact ha e he
  | cons e0 t ih =>
    intro a d n ha e he
    rw [List.foldl_cons] at he
    by_cases hb : e0.2.isSpeedBoosted
    · rw [if_pos hb] at he
      refine ih _ _ _ ?_ e he
      intro e' he'
      rcases List.mem_append.mp he' with h' | h'
      · exact ha e' h'
      · simp at h'
        rw [h']
    · rw [if_neg hb] at he
      refine ih _ _ _ ?_ e he
      intro e' he'
      rcases List.mem_append.mp he' with h' | h'
      · exact ha e' h'
      · simp at h'
        rw [h']
        simpa using hb

theorem resetFold_rate_clean {k : ℕ} :
    ∀ (l : TrackedMap) (a : TrackedMap) (d : List Video) (n : ℕ),
      (∀ e ∈ l, e.1 = k → e.2.isSpeedBoosted = false) →
      rateAt ((l.foldl
        (fun (acc : TrackedMap × List Video × ℕ) e =>
          if e.2.isSpeedBoosted then
            (acc.1 ++ [(e.1, { e.2 with isSpeedBoosted := false })],
             setRate acc.2.1 e.1 e.2.originalRate, acc.2.2 + 1)
          else (acc.1 ++ [e], acc.2.1, acc.2.2)) (a, d, n)).2.1) k = rateAt d k := by
  intro l
  induction l with
  | nil => intro a d n _; rfl
  | cons e0 t ih =>
    intro a d n hcl
    rw [List.foldl_cons]
    by_cases hb : e0.2.isSpeedBoosted
    · rw [if_pos hb]
      have hne : e0.1 ≠ k := by
        intro hk
        rw [hcl e0 (List.mem_cons_self e0 t) hk] at hb
        simp at hb
      have := ih (a ++ [(e0.1, { e0.2 with isSpeedBoosted := false })])
        (setRate d e0.1 e0.2.originalRate) (n + 1)
        (fun e' he' hk => hcl e' (List.mem_cons_of_mem e0 he') hk)
      rw [this]
      exact rateAt_setRate_ne _ (Ne.symm hne)
    · rw [if_neg hb]
      exact ih _ _ _ (fun e' he' hk => hcl e' (List.mem_cons_of_mem e0 he') hk)

theorem resetFold_rate_boosted {k : ℕ} {st : VideoState} :
    ∀ (l : TrackedMap) (a : TrackedMap) (d : List Video) (n : ℕ),
      (l.map Prod.fst).Nodup → (k, st) ∈ l → st.isSpeedBoosted = true →
      (rateAt d k).isSome →
      rateAt ((l.foldl
        (fun (acc : TrackedMap × List Video × ℕ) e =>
          if e.2.isSpeedBoosted then
            (acc.1 ++ [(e.1, { e.2 with isSpeedBoosted := false })],
             setRate acc.2.1 e.1 e.2.originalRate, acc.2.2 + 1)
          else (acc.1 ++ [e], acc.2.1, acc.2.2)) (a, d, n)).2.1) k =
        some st.originalRate := by
  intro l
  induction l with
  | nil => intro a d n _ hm; simp at hm
  | cons e0 t ih =>
    intro a d n hnd hm hb hsome
    rw [List.map_cons] at hnd
    have hnd' := List.nodup_cons.mp hnd
    rw [List.foldl_cons]
    rcases List.mem_cons.mp hm with heq | hm'
    · subst heq
      rw [if_pos hb]
      have hclean : ∀ e' ∈ t, e'.1 = k → e'.2.isSpeedBoosted = false := by
        intro e' he' hk
        exact absurd (List.mem_map.mpr ⟨e', he', hk⟩) hnd'.1
      rw [resetFold_rate_clean t _ _ _ hclean]
      exact rateAt_setRate_self _ hsome
    · have hk0 : e0.1 ≠ k := by
        intro hk
        exact hnd'.1 (by rw [hk]; exact List.mem_map.mpr ⟨(k, st), hm', rfl⟩)
      by_cases hb0 : e0.2.isSpeedBoosted
      · rw [if_pos hb0]
        refine ih _ _ _ hnd'.2 hm' hb ?_
        rw [@rateAt_setRate_ne d k e0.1 e0.2.originalRate (Ne.symm hk0)]
        exact hsome
      · rw [if_neg hb0]
        exact ih _ _ _ hnd'.2 hm' hb hsome

theorem resetAll_tracked_flags (c : Ctrl) (dom : List Video) :
    ∀ e ∈ ((resetAllSpeeds c dom).1).tracked, e.2.isSpeedBoosted = false := by
  intro e he
  exact resetFold_flags c.tracked [] dom 0 (by intro e' he'; simp at he') e he

theorem resetAll_rate_boosted {c : Ctrl} {dom : List Video} {k : ℕ}
    {st : VideoState}
    (hnd : (c.tracked.map Prod.fst).Nodup)
    (hm : mget c.tracked k = some st)
    (hb : st.isSpeedBoosted = true)
    (hsome : (rateAt dom k).isSome) :
    rateAt ((resetAllSpeeds c dom).2.1) k = some st.originalRate :=
  resetFold_rate_boosted c.tracked [] dom 0 hnd (mget_some_elim hm) hb hsome

theorem resetAll_rate_clean {c : Ctrl} {dom : List Video} {k : ℕ}
    (hnd : (c.tracked.map Prod.fst).Nodup)
    (hcl : ∀ st, mget c.tracked k = some st → st.isSpeedBoosted = false) :
    rateAt ((resetAllSpeeds c dom).2.1) k = rateAt dom k := by
  apply resetFold_rate_clean c.tracked [] dom 0
  intro e he hk
  apply hcl e.2
  rw [← hk]
  exact mget_of_mem_nodup hnd he

theorem resetAll_hotkeyState (c : Ctrl) (dom : List Video) :
    ((resetAllSpeeds c dom).1).hotkeyState = c.hotkeyState := rfl

theorem resetAll_indicator (c : Ctrl) (dom : List Video) :
    ((resetAllSpeeds c dom).1).indicatorVisible = false := rfl

theorem resetAll_autoHide (c : Ctrl) (dom : List Video) :
    ((resetAllSpeeds c dom).1).autoHideTimer = c.autoHideTimer := rfl

end ResetAllLemmas

/-! ## Lemmas: the blur / tab-hidden pipeline -/

section BlurLemmas

theorem deactReset_spec {c : Ctrl} {dom : List Video} {now : ℤ}
    (hnd : (c.tracked.map Prod.fst).Nodup)
    (hp : c.hotkeyState.isPressed = true) :
    ((resetAllSpeeds (deactivateSpeedBoost c dom now).1
        (deactivateSpeedBoost c dom now).2).1.hotkeyState = resetHotkeyState)
    ∧ (∀ e ∈ (resetAllSpeeds (deactivateSpeedBoost c dom now).1
        (deactivateSpeedBoost c dom now).2).1.tracked,
        e.2.isSpeedBoosted = false)
    ∧ (∀ k st, mget c.tracked k = some st → st.isSpeedBoosted = true →
        (rateAt dom k).isSome →
        rateAt (resetAllSpeeds (deactivateSpeedBoost c dom now).1
          (deactivateSpeedBoost c dom now).2).2.1 k = some st.originalRate) := by
  cases hsel : (getActiveVideo c dom now).1 with
  | none =>
    have hr := restoreOriginalSpeed_none hsel
    have hde : deactivateSpeedBoost c dom now =
        ({ (getActiveVideo c dom now).2 with hotkeyState := resetHotkeyState },
         dom) := by
      delta deactivateSpeedBoost
      rw [hp, hr]
      rfl
    rw [hde]
    refine ⟨rfl, resetAll_tracked_flags _ _, ?_⟩
    intro k st hmk hb hsome
    have hany : dom.any (fun u => u.id == k) = true := by
      obtain ⟨u, hu, huk⟩ := rateAt_isSome_iff.mp hsome
      exact List.any_eq_true.mpr ⟨u, hu, by simpa using huk⟩
    obtain ⟨st', hst', hor, hbf, -⟩ :=
      @getActive_tracked_preserve c dom now k st hmk hany
    have hres := @resetAll_rate_boosted
      { (getActiveVideo c dom now).2 with hotkeyState := resetHotkeyState }
      dom k st' (getActive_keys_nodup hnd) hst' (by rw [hbf]; exact hb) hsome
    rw [hres, hor]
  | some v =>
    obtain ⟨stv, hstv⟩ := Option.isSome_iff_exists.mp
      (@getActive_allSome c dom now v (getActive_mem hsel))
    cases hbv : stv.isSpeedBoosted with
    | false =>
      have hr := restoreOriginalSpeed_notBoosted hsel hstv hbv
      have hde : deactivateSpeedBoost c dom now =
          ({ hideSpeedIndicator (getActiveVideo c dom now).2 with
             hotkeyState := resetHotkeyState }, dom) := by
        delta deactivateSpeedBoost
        rw [hp, hr]
        rfl
      rw [hde]
      refine ⟨rfl, resetAll_tracked_flags _ _, ?_⟩
      intro k st hmk hb hsome
      have hany : dom.any (fun u => u.id == k) = true := by
        obtain ⟨u, hu, huk⟩ := rateAt_isSome_iff.mp hsome
        exact List.any_eq_true.mpr ⟨u, hu, by simpa using huk⟩
      obtain ⟨st', hst', hor, hbf, -⟩ :=
        @getActive_tracked_preserve c dom now k st hmk hany
      have hres := @resetAll_rate_boosted
        { hideSpeedIndicator (getActiveVideo c dom now).2 with
          hotkeyState := resetHotkeyState }
        dom k st' (getActive_keys_nodup hnd) hst' (by rw [hbf]; exact hb) hsome
      rw [hres, hor]
    | true =>
      have hr := restoreOriginalSpeed_boosted hsel hstv hbv
      have hde : deactivateSpeedBoost c dom now =
          ({ hideSpeedIndicator
               { (getActiveVideo c dom now).2 with
                 tracked := mset ((getActiveVideo c dom now).2).tracked v.id
                   { stv with isSpeedBoosted := false } } with
             hotkeyState := resetHotkeyState },
           setRate dom v.id stv.originalRate) := by
        delta deactivateSpeedBoost
        rw [hp, hr]
        rfl
      rw [hde]
      refine ⟨rfl, resetAll_tracked_flags _ _, ?_⟩
      intro k st hmk hb hsome
      have hany : dom.any (fun u => u.id == k) = true := by
        obtain ⟨u, hu, huk⟩ := rateAt_isSome_iff.mp hsome
        exact List.any_eq_true.mpr ⟨u, hu, by simpa using huk⟩
      obtain ⟨st', hst', hor, hbf, -⟩ :=
        @getActive_tracked_preserve c dom now k st hmk hany
      have hnd₂ : (((mset ((getActiveVideo c dom now).2).tracked v.id
          { stv with isSpeedBoosted := false }).map Prod.fst)).Nodup :=
        keys_nodup_mset (getActive_keys_nodup hnd)
      by_cases hkv : k = v.id
      · subst hkv
        have hstv' : st' = stv := by
          rw [hstv] at hst'
          exact (Option.some.inj hst').symm
        have hcl : ∀ st'', mget (mset ((getActiveVideo c dom now).2).tracked v.id
            { stv with isSpeedBoosted := false }) v.id = some st'' →
            st''.isSpeedBoosted = false := by
          intro st'' h''
          rw [mget_mset_self] at h''
          rw [← Option.some.inj h'']
        have hres := @resetAll_rate_clean
          { hideSpeedIndicator
              { (getActiveVideo c dom now).2 with
                tracked := mset ((getActiveVideo c dom now).2).tracked v.id
                  { stv with isSpeedBoosted := false } } with
            hotkeyState := resetHotkeyState }
          (setRate dom v.id stv.originalRate) v.id hnd₂ hcl
        rw [hres, rateAt_setRate_self _ hsome, ← hstv', hor]
      · have hst'₂ : mget (mset ((getActiveVideo c dom now).2).tracked v.id
            { stv with isSpeedBoosted := false }) k = some st' := by
          rw [mget_mset_ne _ hkv]
          exact hst'
        have hsome₂ : (rateAt (setRate dom v.id stv.originalRate) k).isSome := by
          rw [@rateAt_setRate_ne dom k v.id stv.originalRate hkv]
          exact hsome
        have hres := @resetAll_rate_boosted
          { hideSpeedIndicator
              { (getActiveVideo c dom now).2 with
                tracked := mset ((getActiveVideo c dom now).2).tracked v.id
                  { stv with isSpeedBoosted := false } } with
            hotkeyState := resetHotkeyState }
          (setRate dom v.id stv.originalRate) k st' hnd₂ hst'₂
          (by rw [hbf]; exact hb) hsome₂
        rw [hres, hor]

theorem handleWindowBlur_pressed {c : Ctrl} {dom : List Video} {now : ℤ}
    (hp : c.hotkeyState.isPressed = true) :
    handleWindowBlur c dom now =
      (clearAutoHideTimer (resetAllSpeeds (deactivateSpeedBoost c dom now).1
        (deactivateSpeedBoost c dom now).2).1,
       (resetAllSpeeds (deactivateSpeedBoost c dom now).1
        (deactivateSpeedBoost c dom now).2).2.1) := by
  delta handleWindowBlur
  rw [hp]
  rfl

theorem handleVisibilityChangeHidden_pressed {c : Ctrl} {dom : List Video}
    {now : ℤ} (hp : c.hotkeyState.isPressed = true) :
    handleVisibilityChangeHidden c dom now =
      (clearAutoHideTimer (hideSpeedIndicator
        (resetAllSpeeds (deactivateSpeedBoost c dom now).1
          (deactivateSpeedBoost c dom now).2).1),
       (resetAllSpeeds (deactivateSpeedBoost c dom now).1
        (deactivateSpeedBoost c dom now).2).2.1) := by
  delta handleVisibilityChangeHidden
  rw [hp]
  rfl

end BlurLemmas

/-! ## Auxiliary lemmas for the claim theorems -/

section ClaimAux

theorem getActive_mget_ne {c : Ctrl} {dom : List Video} {now : ℤ} {v : Video}
    {k : ℕ} (hsel : (getActiveVideo c dom now).1 = some v) (hk : k ≠ v.id) :
    mget ((getActiveVideo c dom now).2).tracked k =
      mget (updateTrackedVideos c.tracked dom c.host now) k := by
  match dom with
  | [] => rw [getActiveVideo_nil] at hsel; simp at hsel
  | [u] => rw [getActiveVideo_single]
  | a :: b :: t =>
    rw [getActiveVideo_multi] at hsel ⊢
    cases hs : selectCascade (updateTrackedVideos c.tracked (a :: b :: t) c.host now)
        c.lastActive (a :: b :: t) with
    | none => simp only [hs] at hsel; simp at hsel
    | some w =>
      simp only [hs] at hsel ⊢
      simp at hsel
      subst hsel
      cases hm : mget (updateTrackedVideos c.tracked (a :: b :: t) c.host now) w.id with
      | none => simp only [hm]
      | some stw =>
        simp only [hm]
        exact mget_mset_ne _ hk

theorem length_filter_not_partition (tr : TrackedMap) (p : ℕ × VideoState → Bool) :
    (tr.filter p).length + (tr.filter (fun e => !p e)).length = tr.length := by
  induction tr with
  | nil => rfl
  | cons e t ih =>
    rw [List.filter_cons, List.filter_cons]
    by_cases hp : p e
    · rw [if_pos hp, if_neg (by simp [hp])]
      simp only [List.length_cons]
      omega
    · rw [if_neg hp, if_pos (by simp [hp])]
      simp only [List.length_cons]
      omega

theorem boostPipeline {c : Ctrl} {dom : List Video} {now₁ : ℤ} (now₂ : ℤ)
    {v : Video} {st : VideoState} {n : JSNum}
    (hnd : (dom.map Video.id).Nodup)
    (hts : ∀ e ∈ updateTrackedVideos c.tracked dom c.host now₁,
      e.2.lastInteraction ≤ now₁)
    (hpos : 0 < now₁)
    (hsel : (getActiveVideo c dom now₁).1 = some v)
    (hst : mget ((getActiveVideo c dom now₁).2).tracked v.id = some st)
    (hb : st.isSpeedBoosted = false)
    (h0 : n.jsLeZero = false) (h16 : n.jsGtSixteen = false) :
    applySpeedBoost c dom now₁ (.num n) =
      (true,
       { (getActiveVideo c dom now₁).2 with
         tracked := mset ((getActiveVideo c dom now₁).2).tracked v.id
           { st with originalRate := v.playbackRate, isSpeedBoosted := true } },
       setRate dom v.id n) ∧
    (getActiveVideo
        { (getActiveVideo c dom now₁).2 with
          tracked := mset ((getActiveVideo c dom now₁).2).tracked v.id
            { st with originalRate := v.playbackRate, isSpeedBoosted := true } }
        (setRate dom v.id n) now₂).1 = some (adjVid v.id n v) ∧
    ∃ st₂,
      mget ((getActiveVideo
          { (getActiveVideo c dom now₁).2 with
            tracked := mset ((getActiveVideo c dom now₁).2).tracked v.id
              { st with originalRate := v.playbackRate, isSpeedBoosted := true } }
          (setRate dom v.id n) now₂).2).tracked v.id = some st₂ ∧
      st₂.originalRate = v.playbackRate ∧
      st₂.isSpeedBoosted = true := by
  have hvmem : v ∈ dom := getActive_mem hsel
  have hboost := applySpeedBoost_boost hsel hst hb h0 h16
  have hts_mget : ∀ k st',
      mget (updateTrackedVideos c.tracked dom c.host now₁) k = some st' →
      st'.lastInteraction ≤ now₁ :=
    fun _ st' hm => hts (_, st') (mget_some_elim hm)
  set cg := (getActiveVideo c dom now₁).2 with hcgdef
  set st' : VideoState :=
    { st with originalRate := v.playbackRate, isSpeedBoosted := true } with hstpdef
  set c₁ : Ctrl := { cg with tracked := mset cg.tracked v.id st' } with hc₁def
  set dom₁ : List Video := setRate dom v.id n with hdom₁def
  refine ⟨hboost, ?_, ?_⟩
  · have hla₂ : c₁.lastActive = some v.id := getActive_lastActive hsel
    have hall₂ : ∀ u ∈ dom, (mget c₁.tracked u.id).isSome := fun u hu =>
      mset_isSome_preserve _ (getActive_allSome hu)
    have hkeys₂ : ∀ e ∈ c₁.tracked, dom.any (fun u => u.id == e.1) := by
      intro e he
      exact @mset_keys_prop cg.tracked v.id st'
        (fun key => dom.any (fun u => u.id == key) = true)
        (@getActive_keys c dom now₁)
        (List.any_eq_true.mpr ⟨v, hvmem, by simp⟩) e he
    have hts₂v : 2 ≤ dom.length →
        (mget c₁.tracked v.id).map (·.lastInteraction) = some now₁ := by
      intro h2
      have hbump := getActive_multi_ts h2 hsel
      rw [hst] at hbump
      simp only [Option.map_some', Option.some.injEq] at hbump
      show (mget (mset cg.tracked v.id st') v.id).map (·.lastInteraction) = some now₁
      rw [mget_mset_self]
      exact congrArg some hbump
    have hts₂o : ∀ k, k ≠ v.id →
        (mget c₁.tracked k).map (·.lastInteraction) =
        (mget (updateTrackedVideos c.tracked dom c.host now₁) k).map
          (·.lastInteraction) := by
      intro k hk
      show (mget (mset cg.tracked v.id st') k).map (·.lastInteraction) = _
      rw [mget_mset_ne _ hk, getActive_mget_ne hsel hk]
    exact @getActive_again c c₁ dom v now₁ now₂ v.id n hnd hts_mget hpos hsel
      hla₂ hall₂ hkeys₂ hts₂v hts₂o
  · have hmk₁ : mget c₁.tracked v.id = some st' := mget_mset_self _ _ _
    have hany₂ : dom₁.any (fun u => u.id == v.id) = true := by
      refine List.any_eq_true.mpr ⟨adjVid v.id n v, ?_, ?_⟩
      · exact mem_setRate_of_mem v.id n hvmem
      · simp [adjVid]
    obtain ⟨st₂, hst₂, horig₂, hbf₂, -⟩ :=
      @getActive_tracked_preserve c₁ dom₁ now₂ v.id st' hmk₁ hany₂
    exact ⟨st₂, hst₂, by rw [horig₂], by rw [hbf₂]⟩

end ClaimAux

/-! ## The claims -/

/-- C1: with two or more valid candidates — each with positive rendered
area and, in the refreshed registry, a positive interaction timestamp —
`getActiveVideo` is deterministic and picks exactly the video the
five-level tie-break of §4.1 picks (the spec-modelled
`selectActiveSpec`); in particular, whenever exactly one candidate is
playing it is selected regardless of size. -/
theorem claim_C1_selection_refines_spec (c : Ctrl) (dom : List Video) (now : ℤ)
    (h2 : 2 ≤ dom.length)
    (harea : ∀ v ∈ dom, 0 < area v)
    (hts : ∀ v ∈ dom,
      0 < tsD (updateTrackedVideos c.tracked dom c.host now) v) :
    (getActiveVideo c dom now).1 =
      selectActiveSpec (updateTrackedVideos c.tracked dom c.host now)
        c.lastActive dom ∧
    ∀ p, dom.filter playingPred = [p] →
      (getActiveVideo c dom now).1 = some p := by
  have hne : dom ≠ [] := by
    intro h
    rw [h] at h2
    simp at h2
  constructor
  · rw [getActive_fst_multi h2]
    exact cascade_eq_spec hne (fun u hu => updateTracked_isSome hu) harea hts
  · intro p hp
    rw [getActive_fst_multi h2]
    exact cascade_of_one hp

/-- Witness for C1: on the page `[vidA, vidB]` (paused 320×240 beside
playing 100×100) the hypotheses hold and the playing `vidB` wins. -/
theorem claim_C1_witness :
    (2 ≤ ([vidA, vidB] : List Video).length) ∧
    (∀ v ∈ ([vidA, vidB] : List Video), 0 < area v) ∧
    (∀ v ∈ ([vidA, vidB] : List Video),
      0 < tsD (updateTrackedVideos ctrlW.tracked [vidA, vidB] ctrlW.host 7) v) ∧
    ((getActiveVideo ctrlW [vidA, vidB] 7).1 =
      selectActiveSpec
        (updateTrackedVideos ctrlW.tracked [vidA, vidB] ctrlW.host 7)
        ctrlW.lastActive [vidA, vidB] ∧
     ∀ p, ([vidA, vidB] : List Video).filter playingPred = [p] →
       (getActiveVideo ctrlW [vidA, vidB] 7).1 = some p) :=
  ⟨by decide,
   by intro v hv; fin_cases hv <;> norm_num [area, vidA, vidB],
   by decide,
   claim_C1_selection_refines_spec ctrlW [vidA, vidB] 7 (by decide)
     (by intro v hv; fin_cases hv <;> norm_num [area, vidA, vidB])
     (by decide)⟩

/-- C6: `cleanupStaleElements` keeps exactly the attached entries (so
M−N remain when N of M are detached), reports N removals, and clears
the last-active reference iff its key is among the removed entries. -/
theorem claim_C6_prune_detached (tr : TrackedMap) (la : Option ℕ)
    (attached : ℕ → Bool) :
    (cleanupStaleElements tr la attached).1 =
      tr.filter (fun e => attached e.1) ∧
    (cleanupStaleElements tr la attached).2.2 =
      (tr.filter (fun e => !attached e.1)).length ∧
    (cleanupStaleElements tr la attached).1.length +
      (cleanupStaleElements tr la attached).2.2 = tr.length ∧
    ((cleanupStaleElements tr la attached).2.1 = none ↔
      (la = none ∨ ∃ k, la = some k ∧
        (tr.filter (fun e => !attached e.1)).any (fun e => e.1 == k) = true)) := by
  refine ⟨rfl, rfl, length_filter_not_partition tr _, ?_⟩
  cases la with
  | none => simp [cleanupStaleElements]
  | some k =>
    show (if (tr.filter (fun e => !attached e.1)).any (fun e => e.1 == k)
          then none else some k) = none ↔ _
    by_cases hany :
        (tr.filter (fun e => !attached e.1)).any (fun e => e.1 == k) = true
    · rw [if_pos hany]
      exact ⟨fun _ => Or.inr ⟨k, rfl, hany⟩, fun _ => rfl⟩
    · rw [if_neg hany]
      constructor
      · intro h
        exact Option.noConfusion h
      · rintro (h | ⟨k', hk', ha⟩)
        · exact Option.noConfusion h
        · cases Option.some.inj hk'
          exact absurd ha hany

/-- C8 is refuted on the single-candidate path: with exactly one valid
candidate, `getActiveVideo` returns it and remembers it as last-active,
but its tracked `lastInteraction` stays at its old value 5 instead of
being updated to the current time 7. -/
theorem claim_C8_counterexample :
    (getActiveVideo ctrlN [vidC] 7).1 = some vidC ∧
    ((getActiveVideo ctrlN [vidC] 7).2).lastActive = some vidC.id ∧
    (mget ((getActiveVideo ctrlN [vidC] 7).2).tracked vidC.id).map
      (·.lastInteraction) = some 5 ∧
    ¬((mget ((getActiveVideo ctrlN [vidC] 7).2).tracked vidC.id).map
      (·.lastInteraction) = some 7) := by decide

/-- C8 (amended): whenever `getActiveVideo` returns a video it records
it as the remembered last-active element; the selected video's tracked
`lastInteraction` is updated to the current time only on the
multiple-candidate path — the single-candidate early return skips the
timestamp update. -/
theorem claim_C8_lastactive_and_multi_bump (c : Ctrl) (dom : List Video)
    (now : ℤ) (v : Video)
    (hsel : (getActiveVideo c dom now).1 = some v) :
    ((getActiveVideo c dom now).2).lastActive = some v.id ∧
    (2 ≤ dom.length →
      (mget ((getActiveVideo c dom now).2).tracked v.id).map
        (·.lastInteraction) = some now) :=
  ⟨getActive_lastActive hsel, fun h2 => getActive_multi_ts h2 hsel⟩

/-- Witness for C8: on the two-candidate page the selected `vidB` is
remembered and its timestamp is bumped to 7. -/
theorem claim_C8_witness :
    ((getActiveVideo ctrlW [vidA, vidB] 7).1 = some vidB) ∧
    (((getActiveVideo ctrlW [vidA, vidB] 7).2).lastActive = some vidB.id ∧
     (2 ≤ ([vidA, vidB] : List Video).length →
       (mget ((getActiveVideo ctrlW [vidA, vidB] 7).2).tracked vidB.id).map
         (·.lastInteraction) = some 7)) :=
  ⟨by decide,
   claim_C8_lastactive_and_multi_bump ctrlW [vidA, vidB] 7 vidB (by decide)⟩

/-- C5: hotkey matching succeeds iff the normalized event key equals
the normalized configured key and, for each of ctrl/alt/shift/meta,
membership in the configured modifier list coincides with the event's
pressed flag; in particular a modifier-free `Space` binding rejects a
ctrl-held press, and a ctrl-requiring one rejects a press without
ctrl. -/
theorem claim_C5_hotkey_match_exact (cfg : HotkeyConfig) (ev : KeyEvent) :
    (isConfiguredHotkey cfg (updateModifierState ev) ev = true ↔
      (normalizeKey ev.key = normalizeKey cfg.key ∧
       cfg.modifiers.contains "ctrl" = ev.ctrlKey ∧
       cfg.modifiers.contains "alt" = ev.altKey ∧
       cfg.modifiers.contains "shift" = ev.shiftKey ∧
       cfg.modifiers.contains "meta" = ev.metaKey)) ∧
    isConfiguredHotkey ⟨"Space", []⟩
      (updateModifierState ⟨"Space", true, false, false, false⟩)
      ⟨"Space", true, false, false, false⟩ = false ∧
    isConfiguredHotkey ⟨"Space", ["ctrl"]⟩
      (updateModifierState ⟨"Space", false, false, false, false⟩)
      ⟨"Space", false, false, false, false⟩ = false := by
  refine ⟨?_, by decide, by decide⟩
  unfold isConfiguredHotkey updateModifierState modPressed
  by_cases hk : normalizeKey ev.key = normalizeKey cfg.key
  · rw [hk]
    simp [List.all_cons, List.all_nil, hk]
  · have hkb : (normalizeKey ev.key == normalizeKey cfg.key) = false := by
      simp [hk]
    simp [hkb, hk]

/-- C9: `validateHotkey {key:"R", modifiers:["ctrl"]}` succeeds with
"Refresh page" among its conflicts; in general any structurally
well-formed configuration (non-empty key string, modifiers all drawn
from the known set) yields `success = true` with no errors — warnings
and conflicts never block. -/
theorem claim_C9_validation_never_blocks :
    ((validateHotkey (some ⟨.str "R", .arr ["ctrl"]⟩)).success = true ∧
     (validateHotkey (some ⟨.str "R", .arr ["ctrl"]⟩)).conflicts.contains
       "Refresh page" = true) ∧
    (∀ (s : String) (mods : List String), s ≠ "" →
      (∀ m ∈ mods, validModifiers.contains m = true) →
      (validateHotkey (some ⟨.str s, .arr mods⟩)).success = true ∧
      (validateHotkey (some ⟨.str s, .arr mods⟩)).errors = []) := by
  refine ⟨by decide, ?_⟩
  intro s mods hs hval
  have hinv : mods.filter (fun m => !validModifiers.contains m) = [] := by
    rw [List.filter_eq_nil_iff]
    intro m hm
    rw [hval m hm]
    simp
  constructor
  · delta validateHotkey
    dsimp only
    rw [if_neg hs, hinv, if_neg (fun h => h rfl)]
  · delta validateHotkey
    dsimp only
    rw [if_neg hs, hinv, if_neg (fun h => h rfl)]

/-- C2 is refuted by the code on two inputs.  NaN passes the numeric
gate (`NaN <= 0` and `NaN > 16` are both false in IEEE comparison), so
`applySpeedBoost` with NaN on a non-boosted active video returns
success and writes NaN to the element; and on an already-boosted
active video the early success return precedes validation, so even the
plainly out-of-range multiplier 0 yields success instead of failure. -/
theorem claim_C2_counterexample :
    (applySpeedBoost ctrlN [vidC] 7 (.num .nan)).1 = true ∧
    rateAt (applySpeedBoost ctrlN [vidC] 7 (.num .nan)).2.2 0 = some .nan ∧
    invalidMultiplier (.num (.fin 0)) = true ∧
    (applySpeedBoost ctrlB [vidC] 7 (.num (.fin 0))).1 = true := by decide

/-- C2 (amended): `applySpeedBoost` fails (returning `false`, with the
page rates and the boost-relevant tracked fields untouched) exactly for
the multipliers rejected by the code's own gate — non-numeric values,
or numeric ones with `m <= 0` or `m > 16` under IEEE comparison, a test
NaN does not fail — and only when the active video is not already
boosted; an already-boosted active video produces an early success
return, with no mutation, for every multiplier. -/
theorem claim_C2_invalid_rejected (c : Ctrl) (dom : List Video) (now : ℤ)
    (m : JSVal) (v : Video) (st : VideoState)
    (hsel : (getActiveVideo c dom now).1 = some v)
    (hst : mget ((getActiveVideo c dom now).2).tracked v.id = some st) :
    (st.isSpeedBoosted = false → invalidMultiplier m = true →
      applySpeedBoost c dom now m = (false, (getActiveVideo c dom now).2, dom)) ∧
    (st.isSpeedBoosted = true →
      applySpeedBoost c dom now m = (true, (getActiveVideo c dom now).2, dom)) ∧
    (∀ k st₀, mget c.tracked k = some st₀ →
      dom.any (fun u => u.id == k) = true →
      ∃ st₁, mget ((getActiveVideo c dom now).2).tracked k = some st₁ ∧
        st₁.originalRate = st₀.originalRate ∧
        st₁.isSpeedBoosted = st₀.isSpeedBoosted) := by
  refine ⟨fun hb hinv => applySpeedBoost_invalid hsel hst hb hinv,
          fun hb => applySpeedBoost_boosted m hsel hst hb, ?_⟩
  intro k st₀ hmk hany
  obtain ⟨st₁, h₁, h₂, h₃, -⟩ :=
    @getActive_tracked_preserve c dom now k st₀ hmk hany
  exact ⟨st₁, h₁, h₂, h₃⟩

/-- Witness for C2 (amended): the out-of-range multiplier 20 on the
non-boosted tracked `vidC` is rejected without mutation. -/
theorem claim_C2_witness :
    ((getActiveVideo ctrlN [vidC] 7).1 = some vidC) ∧
    (mget ((getActiveVideo ctrlN [vidC] 7).2).tracked vidC.id =
      some ⟨.fin 1, false, .generic, 5⟩) ∧
    (((⟨.fin 1, false, .generic, 5⟩ : VideoState).isSpeedBoosted = false →
        invalidMultiplier (.num (.fin 20)) = true →
        applySpeedBoost ctrlN [vidC] 7 (.num (.fin 20)) =
          (false, (getActiveVideo ctrlN [vidC] 7).2, [vidC])) ∧
     ((⟨.fin 1, false, .generic, 5⟩ : VideoState).isSpeedBoosted = true →
        applySpeedBoost ctrlN [vidC] 7 (.num (.fin 20)) =
          (true, (getActiveVideo ctrlN [vidC] 7).2, [vidC])) ∧
     (∀ k st₀, mget ctrlN.tracked k = some st₀ →
        ([vidC] : List Video).any (fun u => u.id == k) = true →
        ∃ st₁, mget ((getActiveVideo ctrlN [vidC] 7).2).tracked k = some st₁ ∧
          st₁.originalRate = st₀.originalRate ∧
          st₁.isSpeedBoosted = st₀.isSpeedBoosted)) :=
  ⟨by decide, by decide,
   claim_C2_invalid_rejected ctrlN [vidC] 7 (.num (.fin 20)) vidC
     ⟨.fin 1, false, .generic, 5⟩ (by decide) (by decide)⟩

/-- C4: if window blur or the tab becoming hidden occurs while the
hotkey is pressed (with distinct registry keys), the handler leaves the
hotkey state fully reset, the indicator hidden, the auto-hide timer
cleared, no tracked entry marked boosted, and every
previously-boosted tracked element present on the page restored to its
recorded original rate. -/
theorem claim_C4_blur_hidden_resets (c : Ctrl) (dom : List Video) (now : ℤ)
    (hnd : (c.tracked.map Prod.fst).Nodup)
    (hp : c.hotkeyState.isPressed = true) :
    ((handleWindowBlur c dom now).1.hotkeyState = resetHotkeyState ∧
     (handleWindowBlur c dom now).1.indicatorVisible = false ∧
     (handleWindowBlur c dom now).1.autoHideTimer = false ∧
     (∀ e ∈ (handleWindowBlur c dom now).1.tracked,
       e.2.isSpeedBoosted = false) ∧
     (∀ k st, mget c.tracked k = some st → st.isSpeedBoosted = true →
       (rateAt dom k).isSome →
       rateAt (handleWindowBlur c dom now).2 k = some st.originalRate)) ∧
    ((handleVisibilityChangeHidden c dom now).1.hotkeyState =
       resetHotkeyState ∧
     (handleVisibilityChangeHidden c dom now).1.indicatorVisible = false ∧
     (handleVisibilityChangeHidden c dom now).1.autoHideTimer = false ∧
     (∀ e ∈ (handleVisibilityChangeHidden c dom now).1.tracked,
       e.2.isSpeedBoosted = false) ∧
     (∀ k st, mget c.tracked k = some st → st.isSpeedBoosted = true →
       (rateAt dom k).isSome →
       rateAt (handleVisibilityChangeHidden c dom now).2 k =
         some st.originalRate)) := by
  obtain ⟨hhk, hflags, hrate⟩ := deactReset_spec hnd hp
  constructor
  · rw [handleWindowBlur_pressed hp]
    exact ⟨hhk, rfl, rfl, hflags, hrate⟩
  · rw [handleVisibilityChangeHidden_pressed hp]
    exact ⟨hhk, rfl, rfl, hflags, hrate⟩

/-- Witness for C4: the pressed controller `ctrlP` with boosted element
0 on the page `domP`. -/
theorem claim_C4_witness :
    ((ctrlP.tracked.map Prod.fst).Nodup) ∧
    (ctrlP.hotkeyState.isPressed = true) ∧
    (((handleWindowBlur ctrlP domP 9).1.hotkeyState = resetHotkeyState ∧
      (handleWindowBlur ctrlP domP 9).1.indicatorVisible = false ∧
      (handleWindowBlur ctrlP domP 9).1.autoHideTimer = false ∧
      (∀ e ∈ (handleWindowBlur ctrlP domP 9).1.tracked,
        e.2.isSpeedBoosted = false) ∧
      (∀ k st, mget ctrlP.tracked k = some st → st.isSpeedBoosted = true →
        (rateAt domP k).isSome →
        rateAt (handleWindowBlur ctrlP domP 9).2 k = some st.originalRate)) ∧
     ((handleVisibilityChangeHidden ctrlP domP 9).1.hotkeyState =
        resetHotkeyState ∧
      (handleVisibilityChangeHidden ctrlP domP 9).1.indicatorVisible = false ∧
      (handleVisibilityChangeHidden ctrlP domP 9).1.autoHideTimer = false ∧
      (∀ e ∈ (handleVisibilityChangeHidden ctrlP domP 9).1.tracked,
        e.2.isSpeedBoosted = false) ∧
      (∀ k st, mget ctrlP.tracked k = some st → st.isSpeedBoosted = true →
        (rateAt domP k).isSome →
        rateAt (handleVisibilityChangeHidden ctrlP domP 9).2 k =
          some st.originalRate))) :=
  ⟨by decide, rfl, claim_C4_blur_hidden_resets ctrlP domP 9 (by decide) rfl⟩

/-- C3: on a page with distinct element identities, refreshed
interaction timestamps not in the future and a positive clock, boosting
the tracked non-boosted active video with a valid multiplier in (0,16]
succeeds, and an immediate `restoreOriginalSpeed` succeeds and returns
the element's playback rate to exactly its pre-boost value, leaving it
no longer marked boosted. -/
theorem claim_C3_boost_restore_roundtrip (c : Ctrl) (dom : List Video)
    (now₁ now₂ : ℤ) (n : JSNum) (v : Video) (st : VideoState)
    (hnd : (dom.map Video.id).Nodup)
    (hts : ∀ e ∈ updateTrackedVideos c.tracked dom c.host now₁,
      e.2.lastInteraction ≤ now₁)
    (hpos : 0 < now₁)
    (hsel : (getActiveVideo c dom now₁).1 = some v)
    (hst : mget ((getActiveVideo c dom now₁).2).tracked v.id = some st)
    (hb : st.isSpeedBoosted = false)
    (h0 : n.jsLeZero = false) (h16 : n.jsGtSixteen = false) :
    (applySpeedBoost c dom now₁ (.num n)).1 = true ∧
    rateAt dom v.id = some v.playbackRate ∧
    (restoreOriginalSpeed (applySpeedBoost c dom now₁ (.num n)).2.1
      (applySpeedBoost c dom now₁ (.num n)).2.2 now₂).1 = true ∧
    rateAt (restoreOriginalSpeed (applySpeedBoost c dom now₁ (.num n)).2.1
      (applySpeedBoost c dom now₁ (.num n)).2.2 now₂).2.2 v.id =
      some v.playbackRate ∧
    (mget ((restoreOriginalSpeed (applySpeedBoost c dom now₁ (.num n)).2.1
      (applySpeedBoost c dom now₁ (.num n)).2.2 now₂).2.1).tracked v.id).map
      (·.isSpeedBoosted) = some false := by
  have hvmem : v ∈ dom := getActive_mem hsel
  obtain ⟨hboost, hsel₂, st₂, hst₂, horig₂, hb₂⟩ :=
    boostPipeline now₂ hnd hts hpos hsel hst hb h0 h16
  have hvid : (adjVid v.id n v).id = v.id := by simp [adjVid]
  have hst₂' : mget ((getActiveVideo
      { (getActiveVideo c dom now₁).2 with
        tracked := mset ((getActiveVideo c dom now₁).2).tracked v.id
          { st with originalRate := v.playbackRate, isSpeedBoosted := true } }
      (setRate dom v.id n) now₂).2).tracked (adjVid v.id n v).id =
      some st₂ := by
    rw [hvid]
    exact hst₂
  have hrestore := restoreOriginalSpeed_boosted hsel₂ hst₂' hb₂
  rw [hboost]
  dsimp only
  refine ⟨rfl, rateAt_of_mem_nodup hnd hvmem, ?_, ?_, ?_⟩
  · rw [hrestore]
  · rw [hrestore]
    dsimp only
    rw [hvid]
    have hsome₁ : (rateAt (setRate dom v.id n) v.id).isSome :=
      (rateAt_setRate_isSome n).mpr (rateAt_isSome_iff.mpr ⟨v, hvmem, rfl⟩)
    rw [rateAt_setRate_self _ hsome₁, horig₂]
  · rw [hrestore]
    dsimp only
    rw [hvid, mget_mset_self]
    rfl

/-- Witness for C3: boosting the playing `vidB` by 2 at time 7 and
restoring at time 8 returns its rate to 1. -/
theorem claim_C3_witness :
    (([vidA, vidB].map Video.id).Nodup) ∧
    (∀ e ∈ updateTrackedVideos ctrlW.tracked [vidA, vidB] ctrlW.host 7,
      e.2.lastInteraction ≤ 7) ∧
    ((0 : ℤ) < 7) ∧
    ((getActiveVideo ctrlW [vidA, vidB] 7).1 = some vidB) ∧
    (mget ((getActiveVideo ctrlW [vidA, vidB] 7).2).tracked vidB.id =
      some ⟨.fin 1, false, .generic, 7⟩) ∧
    ((applySpeedBoost ctrlW [vidA, vidB] 7 (.num (.fin 2))).1 = true ∧
     rateAt [vidA, vidB] vidB.id = some vidB.playbackRate ∧
     (restoreOriginalSpeed
       (applySpeedBoost ctrlW [vidA, vidB] 7 (.num (.fin 2))).2.1
       (applySpeedBoost ctrlW [vidA, vidB] 7 (.num (.fin 2))).2.2 8).1 = true ∧
     rateAt (restoreOriginalSpeed
       (applySpeedBoost ctrlW [vidA, vidB] 7 (.num (.fin 2))).2.1
       (applySpeedBoost ctrlW [vidA, vidB] 7 (.num (.fin 2))).2.2 8).2.2
       vidB.id = some vidB.playbackRate ∧
     (mget ((restoreOriginalSpeed
       (applySpeedBoost ctrlW [vidA, vidB] 7 (.num (.fin 2))).2.1
       (applySpeedBoost ctrlW [vidA, vidB] 7 (.num (.fin 2))).2.2 8).2.1).tracked
       vidB.id).map (·.isSpeedBoosted) = some false) :=
  ⟨by decide, by decide, by decide, by decide, by decide,
   claim_C3_boost_restore_roundtrip ctrlW [vidA, vidB] 7 8 (.fin 2) vidB
     ⟨.fin 1, false, .generic, 7⟩ (by decide) (by decide) (by decide)
     (by decide) (by decide) (by decide) (by decide) (by decide)⟩

/-- C7: while the active video is already boosted, a second
`applySpeedBoost` with the same or a different valid multiplier is a
no-op returning success: the page is left exactly as after the first
call, with the element's rate still at the first-applied multiplier
and its tracked original-rate snapshot untouched. -/
theorem claim_C7_idempotent_while_boosted (c : Ctrl) (dom : List Video)
    (now₁ now₂ : ℤ) (n m' : JSNum) (v : Video) (st : VideoState)
    (hnd : (dom.map Video.id).Nodup)
    (hts : ∀ e ∈ updateTrackedVideos c.tracked dom c.host now₁,
      e.2.lastInteraction ≤ now₁)
    (hpos : 0 < now₁)
    (hsel : (getActiveVideo c dom now₁).1 = some v)
    (hst : mget ((getActiveVideo c dom now₁).2).tracked v.id = some st)
    (hb : st.isSpeedBoosted = false)
    (h0 : n.jsLeZero = false) (h16 : n.jsGtSixteen = false)
    (h0' : m'.jsLeZero = false) (h16' : m'.jsGtSixteen = false) :
    (applySpeedBoost c dom now₁ (.num n)).1 = true ∧
    (applySpeedBoost (applySpeedBoost c dom now₁ (.num n)).2.1
      (applySpeedBoost c dom now₁ (.num n)).2.2 now₂ (.num m')).1 = true ∧
    (applySpeedBoost (applySpeedBoost c dom now₁ (.num n)).2.1
      (applySpeedBoost c dom now₁ (.num n)).2.2 now₂ (.num m')).2.2 =
      (applySpeedBoost c dom now₁ (.num n)).2.2 ∧
    rateAt (applySpeedBoost (applySpeedBoost c dom now₁ (.num n)).2.1
      (applySpeedBoost c dom now₁ (.num n)).2.2 now₂ (.num m')).2.2 v.id =
      some n ∧
    (mget ((applySpeedBoost (applySpeedBoost c dom now₁ (.num n)).2.1
      (applySpeedBoost c dom now₁ (.num n)).2.2 now₂ (.num m')).2.1).tracked
      v.id).map (·.originalRate) = some v.playbackRate ∧
    (mget ((applySpeedBoost (applySpeedBoost c dom now₁ (.num n)).2.1
      (applySpeedBoost c dom now₁ (.num n)).2.2 now₂ (.num m')).2.1).tracked
      v.id).map (·.isSpeedBoosted) = some true := by
  have hvmem : v ∈ dom := getActive_mem hsel
  obtain ⟨hboost, hsel₂, st₂, hst₂, horig₂, hb₂⟩ :=
    boostPipeline now₂ hnd hts hpos hsel hst hb h0 h16
  have hvid : (adjVid v.id n v).id = v.id := by simp [adjVid]
  have hst₂' : mget ((getActiveVideo
      { (getActiveVideo c dom now₁).2 with
        tracked := mset ((getActiveVideo c dom now₁).2).tracked v.id
          { st with originalRate := v.playbackRate, isSpeedBoosted := true } }
      (setRate dom v.id n) now₂).2).tracked (adjVid v.id n v).id =
      some st₂ := by
    rw [hvid]
    exact hst₂
  have hsecond := applySpeedBoost_boosted (.num m') hsel₂ hst₂' hb₂
  have hrate : (rateAt dom v.id).isSome :=
    rateAt_isSome_iff.mpr ⟨v, hvmem, rfl⟩
  rw [hboost]
  dsimp only
  refine ⟨rfl, ?_, ?_, ?_, ?_, ?_⟩
  · rw [hsecond]
  · rw [hsecond]
  · rw [hsecond]
    dsimp only
    exact rateAt_setRate_self n hrate
  · rw [hsecond]
    dsimp only
    rw [hst₂]
    simp only [Option.map_some', Option.some.injEq]
    exact horig₂
  · rw [hsecond]
    dsimp only
    rw [hst₂]
    simp only [Option.map_some', Option.some.injEq]
    exact hb₂

/-- Witness for C7: after boosting `vidB` by 2 at time 7, a second
boost by 4 at time 8 is a success-returning no-op. -/
theorem claim_C7_witness :
    (([vidA, vidB].map Video.id).Nodup) ∧
    (∀ e ∈ updateTrackedVideos ctrlW.tracked [vidA, vidB] ctrlW.host 7,
      e.2.lastInteraction ≤ 7) ∧
    ((0 : ℤ) < 7) ∧
    ((getActiveVideo ctrlW [vidA, vidB] 7).1 = some vidB) ∧
    (mget ((getActiveVideo ctrlW [vidA, vidB] 7).2).tracked vidB.id =
      some ⟨.fin 1, false, .generic, 7⟩) ∧
    ((applySpeedBoost ctrlW [vidA, vidB] 7 (.num (.fin 2))).1 = true ∧
     (applySpeedBoost (applySpeedBoost ctrlW [vidA, vidB] 7 (.num (.fin 2))).2.1
       (applySpeedBoost ctrlW [vidA, vidB] 7 (.num (.fin 2))).2.2 8
       (.num (.fin 4))).1 = true ∧
     (applySpeedBoost (applySpeedBoost ctrlW [vidA, vidB] 7 (.num (.fin 2))).2.1
       (applySpeedBoost ctrlW [vidA, vidB] 7 (.num (.fin 2))).2.2 8
       (.num (.fin 4))).2.2 =
       (applySpeedBoost ctrlW [vidA, vidB] 7 (.num (.fin 2))).2.2 ∧
     rateAt (applySpeedBoost
       (applySpeedBoost ctrlW [vidA, vidB] 7 (.num (.fin 2))).2.1
       (applySpeedBoost ctrlW [vidA, vidB] 7 (.num (.fin 2))).2.2 8
       (.num (.fin 4))).2.2 vidB.id = some (.fin 2) ∧
     (mget ((applySpeedBoost
       (applySpeedBoost ctrlW [vidA, vidB] 7 (.num (.fin 2))).2.1
       (applySpeedBoost ctrlW [vidA, vidB] 7 (.num (.fin 2))).2.2 8
       (.num (.fin 4))).2.1).tracked vidB.id).map (·.originalRate) =
       some vidB.playbackRate ∧
     (mget ((applySpeedBoost
       (applySpeedBoost ctrlW [vidA, vidB] 7 (.num (.fin 2))).2.1
       (applySpeedBoost ctrlW [vidA, vidB] 7 (.num (.fin 2))).2.2 8
       (.num (.fin 4))).2.1).tracked vidB.id).map (·.isSpeedBoosted) =
       some true) :=
  ⟨by decide, by decide, by decide, by decide, by decide,
   claim_C7_idempotent_while_boosted ctrlW [vidA, vidB] 7 8 (.fin 2) (.fin 4)
     vidB ⟨.fin 1, false, .generic, 7⟩ (by decide) (by decide) (by decide)
     (by decide) (by decide) (by decide) (by decide) (by decide) (by decide)
     (by decide)⟩

/-- C10: with no valid candidate, `getActiveVideo` returns `none` and
clears the remembered last-active reference, and any video a subsequent
call (from the cleared state) returns is a member of that call's own
candidate list — a previously selected video can only come back by
being re-detected. -/
theorem claim_C10_empty_clears_lastactive (c : Ctrl) (now : ℤ) :
    (getActiveVideo c [] now).1 = none ∧
    ((getActiveVideo c [] now).2).lastActive = none ∧
    ∀ (dom' : List Video) (now' : ℤ) (v : Video),
      (getActiveVideo ((getActiveVideo c [] now).2) dom' now').1 = some v →
      v ∈ dom' :=
  ⟨by rw [getActiveVideo_nil], by rw [getActiveVideo_nil],
   fun _ _ _ h => getActive_mem h⟩

end PulsePlay
